import Mathlib

/-!
# f5c `meth_main`: the batch pipeline of `src/meth_main.c`

A shallow embedding of the two execution modes of `meth_main`:

* the serial loop (compiled under `IO_PROC_NO_INTERLEAVE`), a fuel-indexed function;
* the interleaved loop (the default), a small-step transition system whose
  schedulable units are the controller (the main thread) and the
  `pthread_processor` / `pthread_post_processor` tasks it spawns.

Records are natural numbers (their identity is all the scheduler sees).  The
objects created by iteration `k` of the interleaved loop (the `db_t` returned by
`init_db`, the `pthread_arg2_t` obtained from `malloc`, and the two tasks that
receive that argument) are gathered in slot `k`.

The pthread primitives are library code, modelled after POSIX:
`pthread_create` always succeeds and yields a fresh task, `pthread_join`
blocks until the target task has exited, a mutex is a flag, and
`pthread_cond_wait` releases the mutex, blocks, and returns after taking the
mutex again.  A `pthread_cond_signal` issued while the waiter is blocked ends
the wait; a signal issued while nobody is blocked has no effect.  POSIX also
permits the wait to end although no signal was sent, and promises no such
return: whether the wait of slot `k` may end that way is the component
`spurious k` of the configuration, so that a statement over every
configuration covers both behaviours of the library.
-/

set_option linter.unusedTactic false
set_option linter.unreachableTactic false
set_option linter.unnecessarySeqFocus false

namespace F5c

/-! ## Configuration and the load stage -/

/-- The part of `core->opt` read by the loops, the `load_db` collaborator seen
as a function from the input cursor to the loaded records and the advanced
cursor, and the behaviour of the threads library at `pthread_cond_wait`. -/
structure Cfg where
  /-- Field `core->opt.batch_size`. -/
  batch_size : Nat
  /-- Bit `opt.flag & F5C_DEBUG_BRK`. -/
  debug_brk : Bool
  /-- The `load_db` collaborator: records loaded, cursor after the call. -/
  load : List Nat → List Nat × List Nat
  /-- The `pthread_cond_wait` of slot `k` may return although no signal was
  sent (POSIX permits such a return and does not promise it). -/
  spurious : Nat → Bool

/-- Modelled from the spec: `load_db` (defined outside `meth_main.c`) fills the
batch with up to `capacity` records from the input source, returns the number
actually loaded and advances the shared input cursor. -/
def load_db (capacity : Nat) (cursor : List Nat) : List Nat × List Nat :=
  (cursor.take capacity, cursor.drop capacity)

/-- The configuration with the `load_db` of the spec and a threads library in
which `pthread_cond_wait` of slot `k` may return without a signal when
`wake k` holds. -/
def wakeCfg (capacity : Nat) (brk : Bool) (wake : Nat → Bool) : Cfg :=
  { batch_size := capacity, debug_brk := brk, load := load_db capacity, spurious := wake }

/-- The configuration with the `load_db` of the spec and a threads library in
which `pthread_cond_wait` returns only when signalled. -/
def stdCfg (capacity : Nat) (brk : Bool) : Cfg :=
  wakeCfg capacity brk (fun _ => false)

/-! ## Serial mode (`IO_PROC_NO_INTERLEAVE`) -/

/-- State of the serial run: the loop variable, the input cursor, the single
batch, and the calls made so far. -/
structure SerialState where
  /-- Local `status`. -/
  status : Nat
  /-- Input cursor held by `core`. -/
  cursor : List Nat
  /-- Records of the single `db`. -/
  recs : List Nat
  /-- The records of `db` have been through `process_db`. -/
  processed : Bool
  /-- Sizes returned by the `load_db` calls, in call order. -/
  loads : List Nat
  /-- Batches handed to `output_db`, in call order, with "was processed". -/
  outputs : List (List Nat × Bool)
  /-- Number of `init_db` calls. -/
  db_allocs : Nat
  /-- Number of `free_db_tmp` calls. -/
  tmp_frees : Nat
  /-- Number of `free_db` calls. -/
  db_frees : Nat
  deriving DecidableEq, Repr

/-- Lines 306-323, one pass through the body of the serial loop: `load_db`,
`process_db`, `output_db`, `free_db_tmp`. -/
def serial_body (cfg : Cfg) (s : SerialState) : SerialState :=
  let s1 : SerialState :=
    { s with
      status := (cfg.load s.cursor).1.length
      cursor := (cfg.load s.cursor).2
      recs := (cfg.load s.cursor).1
      processed := false
      loads := s.loads ++ [(cfg.load s.cursor).1.length] }
  let s2 : SerialState := { s1 with processed := true }
  let s3 : SerialState := { s2 with outputs := s2.outputs ++ [(s2.recs, s2.processed)] }
  { s3 with tmp_frees := s3.tmp_frees + 1 }

/-- Lines 304-328: `while (status >= db->capacity_bam_rec) { body; if
(F5C_DEBUG_BRK) break; }`.  `none` when the fuel is exhausted before the loop
exits. -/
def serial_loop (cfg : Cfg) : Nat → SerialState → Option SerialState
  | 0, _ => none
  | fuel + 1, s =>
    if cfg.batch_size ≤ s.status then
      if cfg.debug_brk then some (serial_body cfg s)
      else serial_loop cfg fuel (serial_body cfg s)
    else some s

/-- Lines 300-331 and 462-464 of `meth_main` in serial mode: `init_db`, the
loop, `free_db`, then `return 0`.  The result is the exit status and the final
state. -/
def meth_main_serial (cfg : Cfg) (fuel : Nat) (input : List Nat) : Option (Nat × SerialState) :=
  let s0 : SerialState :=
    { status := cfg.batch_size, cursor := input, recs := [], processed := false, loads := [],
      outputs := [], db_allocs := 1, tmp_frees := 0, db_frees := 0 }
  match serial_loop cfg fuel s0 with
  | none => none
  | some s => some (0, { s with db_frees := s.db_frees + 1 })

/-! ## Interleaved mode -/

/-- Program points of the controller (the interleaved branch of `meth_main`). -/
inductive CPc
  /-- Line 341, the `while` test. -/
  | loop_test
  /-- Line 343. -/
  | init_db
  /-- Line 344. -/
  | load_db
  /-- Lines 350-359. -/
  | join_p
  /-- Lines 362-367. -/
  | malloc_arg
  /-- Line 371. -/
  | create_p
  /-- Lines 379-388. -/
  | join_pp
  /-- Line 391. -/
  | create_pp
  /-- Line 400. -/
  | brk_test
  /-- Line 406. -/
  | final_join_p
  /-- Line 413. -/
  | final_join_pp
  /-- Line 462. -/
  | free_core
  /-- Line 464, after `return 0`. -/
  | returned
  deriving DecidableEq, Repr

/-- Program points of a `pthread_processor` task. -/
inductive PPc
  /-- No `pthread_create` yet. -/
  | unspawned
  /-- Line 110. -/
  | process_db
  /-- Line 117. -/
  | lock
  /-- Line 118. -/
  | signal
  /-- Line 119. -/
  | unlock
  /-- After `pthread_exit`. -/
  | exited
  deriving DecidableEq, Repr

/-- Program points of a `pthread_post_processor` task. -/
inductive QPc
  /-- No `pthread_create` yet. -/
  | unspawned
  /-- Line 137. -/
  | lock
  /-- Line 138, entering `pthread_cond_wait`. -/
  | cond_wait
  /-- Line 138, blocked on the condition, mutex released. -/
  | blocked
  /-- Line 138, the wait has ended, taking the mutex again. -/
  | relock
  /-- Line 139. -/
  | unlock
  /-- Line 147. -/
  | output_db
  /-- Line 148. -/
  | free_db_tmp
  /-- Line 149. -/
  | free_db
  /-- Line 150. -/
  | free_arg
  /-- After `pthread_exit`. -/
  | exited
  deriving DecidableEq, Repr

/-- Everything created by one loop iteration: the batch, the handshake and the
two tasks. -/
structure Slot where
  /-- Number of times `init_db` returned this batch. -/
  db_allocs : Nat
  /-- Set by `load_db`. -/
  loaded : Bool
  /-- Records of the batch. -/
  recs : List Nat
  /-- Set by `process_db`. -/
  processed : Bool
  /-- Number of `output_db` calls on the batch. -/
  outs : Nat
  /-- Number of `free_db_tmp` calls. -/
  tmp_frees : Nat
  /-- Number of `free_db` calls. -/
  db_frees : Nat
  /-- Number of times `malloc` returned this `pthread_arg2_t`. -/
  arg_allocs : Nat
  /-- Number of `free(args)` calls. -/
  arg_frees : Nat
  /-- Field `args->mutex` is held. -/
  mutex : Bool
  /-- Number of `pthread_cond_signal` calls on `args->cond`. -/
  signals : Nat
  /-- The `pthread_processor` task. -/
  p : PPc
  /-- The `pthread_post_processor` task. -/
  q : QPc
  /-- The processor task has been joined. -/
  p_joined : Bool
  /-- The post-processor task has been joined. -/
  q_joined : Bool
  deriving DecidableEq, Repr

/-- A slot nothing has touched. -/
def Slot.fresh : Slot :=
  { db_allocs := 0, loaded := false, recs := [], processed := false, outs := 0,
    tmp_frees := 0, db_frees := 0, arg_allocs := 0, arg_frees := 0, mutex := false,
    signals := 0, p := .unspawned, q := .unspawned, p_joined := false, q_joined := false }

/-- Global state of the interleaved run. -/
structure State where
  /-- Program point of the controller. -/
  pc : CPc
  /-- Local `status`. -/
  status : Nat
  /-- Local `first_flag_p`. -/
  first_flag_p : Bool
  /-- Local `first_flag_pp`. -/
  first_flag_pp : Bool
  /-- Local `tid_p`: slot of the task it names. -/
  tid_p : Nat
  /-- Local `tid_pp`: slot of the task it names. -/
  tid_pp : Nat
  /-- Locals `db` and `pt_arg`: slot of the current iteration. -/
  db : Nat
  /-- Number of `init_db` calls so far. -/
  n : Nat
  /-- Input cursor held by `core`. -/
  cursor : List Nat
  /-- Sizes returned by the `load_db` calls, in call order. -/
  loads : List Nat
  /-- Batches handed to `output_db`, in call order, with "was processed". -/
  outputs : List (List Nat × Bool)
  /-- The slots. -/
  slots : Nat → Slot

/-- Replace slot `k`. -/
def upd (f : Nat → Slot) (k : Nat) (v : Slot) : Nat → Slot :=
  fun j => if j = k then v else f j

/-- State on entry to the interleaved branch (lines 335-339). -/
def init (cfg : Cfg) (input : List Nat) : State :=
  { pc := .loop_test, status := cfg.batch_size, first_flag_p := false, first_flag_pp := false,
    tid_p := 0, tid_pp := 0, db := 0, n := 0, cursor := input, loads := [], outputs := [],
    slots := fun _ => Slot.fresh }

/-- Schedulable units. -/
inductive Tid
  /-- The controller. -/
  | main
  /-- The `pthread_processor` task of a slot. -/
  | proc (k : Nat)
  /-- The `pthread_post_processor` task of a slot. -/
  | post (k : Nat)
  deriving DecidableEq, Repr

/-- One statement of the controller; `none` when it is blocked in a join or has
returned. -/
def meth_main_step (cfg : Cfg) (s : State) : Option State :=
  match s.pc with
  | .loop_test =>
    some { s with pc := if cfg.batch_size ≤ s.status then .init_db else .final_join_p }
  | .init_db =>
    some { s with
      pc := .load_db, db := s.n, n := s.n + 1
      slots := upd s.slots s.n { s.slots s.n with db_allocs := (s.slots s.n).db_allocs + 1 } }
  | .load_db =>
    some { s with
      pc := .join_p
      status := (cfg.load s.cursor).1.length
      cursor := (cfg.load s.cursor).2
      loads := s.loads ++ [(cfg.load s.cursor).1.length]
      slots := upd s.slots s.db
        { s.slots s.db with loaded := true, recs := (cfg.load s.cursor).1 } }
  | .join_p =>
    if s.first_flag_p then
      if (s.slots s.tid_p).p = .exited then
        some { s with
          pc := .malloc_arg
          slots := upd s.slots s.tid_p { s.slots s.tid_p with p_joined := true } }
      else none
    else some { s with pc := .malloc_arg, first_flag_p := true }
  | .malloc_arg =>
    some { s with
      pc := .create_p
      slots := upd s.slots s.db { s.slots s.db with arg_allocs := (s.slots s.db).arg_allocs + 1 } }
  | .create_p =>
    some { s with
      pc := .join_pp, tid_p := s.db
      slots := upd s.slots s.db { s.slots s.db with p := .process_db } }
  | .join_pp =>
    if s.first_flag_pp then
      if (s.slots s.tid_pp).q = .exited then
        some { s with
          pc := .create_pp
          slots := upd s.slots s.tid_pp { s.slots s.tid_pp with q_joined := true } }
      else none
    else some { s with pc := .create_pp, first_flag_pp := true }
  | .create_pp =>
    some { s with
      pc := .brk_test, tid_pp := s.db
      slots := upd s.slots s.db { s.slots s.db with q := .lock } }
  | .brk_test =>
    some { s with pc := if cfg.debug_brk then .final_join_p else .loop_test }
  | .final_join_p =>
    if (s.slots s.tid_p).p = .exited then
      some { s with
        pc := .final_join_pp
        slots := upd s.slots s.tid_p { s.slots s.tid_p with p_joined := true } }
    else none
  | .final_join_pp =>
    if (s.slots s.tid_pp).q = .exited then
      some { s with
        pc := .free_core
        slots := upd s.slots s.tid_pp { s.slots s.tid_pp with q_joined := true } }
    else none
  | .free_core => some { s with pc := .returned }
  | .returned => none

/-- One statement of a `pthread_processor` task, acting on the objects of its
slot; `none` when it cannot move. -/
def pthread_processor (sl : Slot) : Option Slot :=
  match sl.p with
  | .unspawned => none
  | .process_db => some { sl with processed := true, p := .lock }
  | .lock => if sl.mutex then none else some { sl with mutex := true, p := .signal }
  | .signal =>
    some { sl with
      signals := sl.signals + 1
      q := if sl.q = .blocked then .relock else sl.q
      p := .unlock }
  | .unlock => some { sl with mutex := false, p := .exited }
  | .exited => none

/-- One statement of a `pthread_post_processor` task, acting on the objects of
its slot; `none` when it cannot move.  A task blocked in `pthread_cond_wait`
moves on its own only if the library lets the wait end without a signal
(`wake`); otherwise it stays until the processor signals. -/
def pthread_post_processor (wake : Bool) (sl : Slot) : Option Slot :=
  match sl.q with
  | .unspawned => none
  | .lock => if sl.mutex then none else some { sl with mutex := true, q := .cond_wait }
  | .cond_wait => some { sl with mutex := false, q := .blocked }
  | .blocked => if wake then some { sl with q := .relock } else none
  | .relock => if sl.mutex then none else some { sl with mutex := true, q := .unlock }
  | .unlock => some { sl with mutex := false, q := .output_db }
  | .output_db => some { sl with outs := sl.outs + 1, q := .free_db_tmp }
  | .free_db_tmp => some { sl with tmp_frees := sl.tmp_frees + 1, q := .free_db }
  | .free_db => some { sl with db_frees := sl.db_frees + 1, q := .free_arg }
  | .free_arg => some { sl with arg_frees := sl.arg_frees + 1, q := .exited }
  | .exited => none

/-- The `pthread_processor` task of slot `k` executes one statement. -/
def step_proc (k : Nat) (s : State) : Option State :=
  match pthread_processor (s.slots k) with
  | none => none
  | some sl => some { s with slots := upd s.slots k sl }

/-- The `pthread_post_processor` task of slot `k` executes one statement; its
`output_db` call is appended to the output sequence. -/
def step_post (cfg : Cfg) (k : Nat) (s : State) : Option State :=
  match pthread_post_processor (cfg.spurious k) (s.slots k) with
  | none => none
  | some sl =>
    some { s with
      outputs :=
        if (s.slots k).q = .output_db then
          s.outputs ++ [((s.slots k).recs, (s.slots k).processed)]
        else s.outputs
      slots := upd s.slots k sl }

/-- One statement of the chosen unit, `none` when that unit cannot move. -/
def step (cfg : Cfg) (t : Tid) (s : State) : Option State :=
  match t with
  | .main => meth_main_step cfg s
  | .proc k => step_proc k s
  | .post k => step_post cfg k s

/-- Run a schedule; a choice that cannot move is skipped. -/
def run (cfg : Cfg) (sched : List Tid) (s : State) : State :=
  sched.foldl (fun s t => (step cfg t s).getD s) s

/-- The state reached from the start of the interleaved branch. -/
def exec (cfg : Cfg) (input : List Nat) (sched : List Tid) : State :=
  run cfg sched (init cfg input)

/-- Neither the controller nor any task can execute a statement. -/
def stuck (cfg : Cfg) (s : State) : Prop :=
  ∀ t, step cfg t s = none

/-! ## The invariant of the interleaved run -/

/-- Cursor after `k` calls of `load_db`. -/
def cursorAt (cfg : Cfg) (input : List Nat) : Nat → List Nat
  | 0 => input
  | k + 1 => (cfg.load (cursorAt cfg input k)).2

/-- Records returned by call number `k` of `load_db`. -/
def batchAt (cfg : Cfg) (input : List Nat) (k : Nat) : List Nat :=
  (cfg.load (cursorAt cfg input k)).1

/-- The loop is left after iteration `k`. -/
def stopAt (cfg : Cfg) (input : List Nat) (k : Nat) : Prop :=
  cfg.debug_brk = true ∨ (batchAt cfg input k).length < cfg.batch_size

/-- The processor has returned from `process_db`. -/
def PPc.done_process : PPc → Bool
  | .lock | .signal | .unlock | .exited => true
  | _ => false

/-- The processor has called `pthread_cond_signal`. -/
def PPc.signalled : PPc → Bool
  | .unlock | .exited => true
  | _ => false

/-- The processor holds `args->mutex`. -/
def PPc.holds : PPc → Bool
  | .signal | .unlock => true
  | _ => false

/-- The post-processor holds `args->mutex`. -/
def QPc.holds : QPc → Bool
  | .cond_wait | .unlock => true
  | _ => false

/-- The wait of the post-processor in `pthread_cond_wait` has ended. -/
def QPc.woken : QPc → Bool
  | .relock | .unlock | .output_db | .free_db_tmp | .free_db | .free_arg | .exited => true
  | _ => false

/-- The post-processor has returned from `output_db`. -/
def QPc.past_output : QPc → Bool
  | .free_db_tmp | .free_db | .free_arg | .exited => true
  | _ => false

/-- The post-processor has returned from `free_db_tmp`. -/
def QPc.past_tmp : QPc → Bool
  | .free_db | .free_arg | .exited => true
  | _ => false

/-- The post-processor has returned from `free_db`. -/
def QPc.past_free : QPc → Bool
  | .free_arg | .exited => true
  | _ => false

/-- Consistency of one slot: the flags and counters of the batch and of the
handshake agree with the program points of the two tasks.  When the library
ends the wait only on a signal (`wake = false`), a post-processor past its
wait has a processor past its signal. -/
structure SlotOk (wake : Bool) (sl : Slot) : Prop where
  processed : sl.processed = sl.p.done_process
  signals : sl.signals = if sl.p.signalled then 1 else 0
  woken : wake = false → sl.q.woken = true → sl.p.signalled = true
  mutex : sl.mutex = (sl.p.holds || sl.q.holds)
  excl : ¬ (sl.p.holds = true ∧ sl.q.holds = true)
  outs : sl.outs = if sl.q.past_output then 1 else 0
  tmp : sl.tmp_frees = if sl.q.past_tmp then 1 else 0
  dbf : sl.db_frees = if sl.q.past_free then 1 else 0
  argf : sl.arg_frees = if sl.q = .exited then 1 else 0
  pj : sl.p_joined = true → sl.p = .exited
  qj : sl.q_joined = true → sl.q = .exited

/-- Number of processor tasks spawned so far, read off the controller. -/
def np (s : State) : Nat :=
  match s.pc with
  | .load_db | .join_p | .malloc_arg | .create_p => s.n - 1
  | _ => s.n

/-- Number of processor tasks joined so far. -/
def jp (s : State) : Nat :=
  match s.pc with
  | .load_db | .join_p => s.n - 2
  | .final_join_pp | .free_core | .returned => s.n
  | _ => s.n - 1

/-- Number of post-processor tasks spawned so far. -/
def nq (s : State) : Nat :=
  match s.pc with
  | .load_db | .join_p | .malloc_arg | .create_p | .join_pp | .create_pp => s.n - 1
  | _ => s.n

/-- Number of post-processor tasks joined so far. -/
def jq (s : State) : Nat :=
  match s.pc with
  | .load_db | .join_p | .malloc_arg | .create_p | .join_pp => s.n - 2
  | .free_core | .returned => s.n
  | _ => s.n - 1

/-- Number of `load_db` calls so far. -/
def nl (s : State) : Nat :=
  match s.pc with
  | .load_db => s.n - 1
  | _ => s.n

/-- Number of `pthread_arg2_t` allocations so far. -/
def na (s : State) : Nat :=
  match s.pc with
  | .load_db | .join_p | .malloc_arg => s.n - 1
  | _ => s.n

/-- Number of iterations known not to have ended the loop. -/
def ns (s : State) : Nat :=
  match s.pc with
  | .init_db => s.n
  | _ => s.n - 1

/-- The controller is inside the loop body, past `init_db`. -/
def CPc.in_body : CPc → Bool
  | .load_db | .join_p | .malloc_arg | .create_p | .join_pp | .create_pp | .brk_test => true
  | _ => false

/-- The controller has left the loop. -/
def CPc.after_loop : CPc → Bool
  | .final_join_p | .final_join_pp | .free_core | .returned => true
  | _ => false

/-- Local `status` holds the size of the latest batch. -/
def CPc.has_status : CPc → Bool
  | .init_db | .load_db => false
  | _ => true

/-- Number of `output_db` calls so far. -/
def nout (s : State) : Nat :=
  jq s + if (s.slots (jq s)).q.past_output then 1 else 0

/-- The invariant of the interleaved run: the locals of the controller, the life
cycle of every slot, the records loaded and the records output are all
determined by the program point of the controller, the number of iterations and
the program points of the two tasks of each slot; every batch handed to
`output_db` had been processed if the library ends no wait without a signal. -/
structure Inv (cfg : Cfg) (input : List Nat) (s : State) : Prop where
  n0 : s.n = 0 → s.pc = .loop_test ∨ s.pc = .init_db
  db_eq : s.pc.in_body = true → s.db + 1 = s.n
  ffp : s.first_flag_p = true ↔ (0 < np s ∨ s.pc = .malloc_arg ∨ s.pc = .create_p)
  tidp : 0 < np s → s.tid_p + 1 = np s
  ffq : s.first_flag_pp = true ↔ (0 < nq s ∨ s.pc = .create_pp)
  tidq : 0 < nq s → s.tid_pp + 1 = nq s
  p_sp : ∀ k, (s.slots k).p ≠ .unspawned ↔ k < np s
  p_jn : ∀ k, (s.slots k).p_joined = true ↔ k < jp s
  q_sp : ∀ k, (s.slots k).q ≠ .unspawned ↔ k < nq s
  q_jn : ∀ k, (s.slots k).q_joined = true ↔ k < jq s
  alloc : ∀ k, (s.slots k).db_allocs = if k < s.n then 1 else 0
  ld : ∀ k, (s.slots k).loaded = true ↔ k < nl s
  arg : ∀ k, (s.slots k).arg_allocs = if k < na s then 1 else 0
  ok : ∀ k, SlotOk (cfg.spurious k) (s.slots k)
  cur : s.cursor = cursorAt cfg input (nl s)
  recs : ∀ k, k < nl s → (s.slots k).recs = batchAt cfg input k
  lds : s.loads = (List.range (nl s)).map (fun k => (batchAt cfg input k).length)
  st0 : s.pc.has_status = true → s.n = 0 → s.status = cfg.batch_size
  st1 : s.pc.has_status = true → 0 < s.n → s.status = (batchAt cfg input (s.n - 1)).length
  cont : ∀ k, k < ns s → ¬ stopAt cfg input k
  nobrk : s.pc = .loop_test → 0 < s.n → cfg.debug_brk = false
  stop : s.pc.after_loop = true → stopAt cfg input (s.n - 1)
  out : s.outputs.map Prod.fst = (List.range (nout s)).map (batchAt cfg input) ∧
    ((∀ k, cfg.spurious k = false) → ∀ x ∈ s.outputs, x.2 = true)

/-- What the controller relies on is the same in both slots. -/
structure Slot.same (a b : Slot) : Prop where
  p : a.p = .unspawned ↔ b.p = .unspawned
  q : a.q = .unspawned ↔ b.q = .unspawned
  pj : a.p_joined = b.p_joined
  qj : a.q_joined = b.q_joined
  al : a.db_allocs = b.db_allocs
  ld : a.loaded = b.loaded
  ar : a.arg_allocs = b.arg_allocs
  re : a.recs = b.recs

/-! ## Number of iterations -/

/-- Index of the last iteration of either loop. -/
def last_iter (C : Nat) (brk : Bool) (N : Nat) : Nat := if brk then 0 else N / C

/-! ## Option parsing (lines 159-289) -/

/-- The `F5C_*` bits of `opt.flag`, one field per bit. -/
structure Flags where
  print_raw : Bool
  secondary_yes : Bool
  skip_unreadable : Bool
  print_events : Bool
  print_banded_aln : Bool
  print_scaling : Bool
  disable_cuda : Bool
  debug_brk : Bool
  deriving DecidableEq, Repr

/-- The fields of `opt_t` written by the parsing loop. -/
structure Opt where
  batch_size : Int
  num_thread : Int
  verbosity : Int
  min_mapq : Int
  cuda_block_size : Int
  model_file : Option String
  flag : Flags
  deriving DecidableEq, Repr

/-- Process exit status. -/
inductive Exit
  | success
  | failure
  deriving DecidableEq, Repr

/-- One return of `getopt_long`: the value `c` (character code, `0` for a
long-only option), `longindex` and `optarg`. -/
structure GetOpt where
  c : Nat
  longindex : Nat
  optarg : String
  deriving DecidableEq, Repr

/-- Locals of `meth_main` set by the parsing loop. -/
structure Parsed where
  opt : Opt
  fastqfile : Option String
  bamfilename : Option String
  fastafile : Option String
  help_to_stdout : Bool
  deriving DecidableEq, Repr

/-- The C library `isspace` in the "C" locale: space, and the control
characters from horizontal tab (9) to carriage return (13), which include
vertical tab and form feed. -/
def isspace (ch : Char) : Bool :=
  ch.toNat = 32 || (9 ≤ ch.toNat && ch.toNat ≤ 13)

/-- Value of the decimal digits at the head of the list, most significant
first. -/
def atoi_digits : List Char → Nat → Nat
  | [], acc => acc
  | ch :: rest, acc => if ch.isDigit then atoi_digits rest (acc * 10 + (ch.toNat - 48)) else acc

/-- The C library `strtol(str, NULL, 10)` with a 64-bit `long`: leading white
space, an optional sign, then the longest run of decimal digits (`0` when
there is none); a value out of range is replaced by `LONG_MIN` or `LONG_MAX`. -/
def strtol (str : String) : Int :=
  let v : Int :=
    match str.toList.dropWhile isspace with
    | '-' :: rest => - (atoi_digits rest 0 : Int)
    | '+' :: rest => (atoi_digits rest 0 : Int)
    | rest => (atoi_digits rest 0 : Int)
  max (-(2 ^ 63)) (min v (2 ^ 63 - 1))

/-- Conversion of a `long` to a 32-bit two-complement `int`: the value modulo
`2^32`, taken in the range from `-2^31` to `2^31 - 1`. -/
def long_to_int (v : Int) : Int :=
  (v + 2 ^ 31) % 2 ^ 32 - 2 ^ 31

/-- The C library `atoi` as glibc defines it, `(int) strtol(str, NULL, 10)`. -/
def atoi (str : String) : Int :=
  long_to_int (strtol str)

/-- Lines 77-100, `yes_or_no` on the bit it is given. -/
def yes_or_no (bit : Bool) (arg : String) (yes_to_set : Bool) : Bool :=
  if yes_to_set then
    if arg = "yes" ∨ arg = "y" then true
    else if arg = "no" ∨ arg = "n" then false
    else bit
  else
    if arg = "yes" ∨ arg = "y" then false
    else if arg = "no" ∨ arg = "n" then true
    else bit

/-- Lines 175-234: the body of the parsing loop for one `getopt_long` return.
An `exit` call ends the run with its status. -/
def parse_one (have_cuda : Bool) (g : GetOpt) (st : Parsed) : Except Exit Parsed :=
  if g.c = 'r'.toNat then .ok { st with fastqfile := some g.optarg }
  else if g.c = 'b'.toNat then .ok { st with bamfilename := some g.optarg }
  else if g.c = 'g'.toNat then .ok { st with fastafile := some g.optarg }
  else if g.c = 'p'.toNat then
    .ok { st with opt := { st.opt with flag := { st.opt.flag with print_raw := true } } }
  else if g.c = 'K'.toNat then
    if atoi g.optarg < 1 then .error .failure
    else .ok { st with opt := { st.opt with batch_size := atoi g.optarg } }
  else if g.c = 't'.toNat then
    if atoi g.optarg < 1 then .error .failure
    else .ok { st with opt := { st.opt with num_thread := atoi g.optarg } }
  else if g.c = 'v'.toNat then .ok { st with opt := { st.opt with verbosity := atoi g.optarg } }
  else if g.c = 'V'.toNat then .error .success
  else if g.c = 'h'.toNat then .ok { st with help_to_stdout := true }
  else if g.c = 0 ∧ g.longindex = 9 then
    .ok { st with opt := { st.opt with min_mapq := atoi g.optarg } }
  else if g.c = 0 ∧ g.longindex = 10 then
    .ok { st with opt := { st.opt with flag := { st.opt.flag with
      secondary_yes := yes_or_no st.opt.flag.secondary_yes g.optarg true } } }
  else if g.c = 0 ∧ g.longindex = 11 then
    .ok { st with opt := { st.opt with model_file := some g.optarg } }
  else if g.c = 0 ∧ g.longindex = 12 then
    .ok { st with opt := { st.opt with flag := { st.opt.flag with
      skip_unreadable := yes_or_no st.opt.flag.skip_unreadable g.optarg true } } }
  else if g.c = 0 ∧ g.longindex = 13 then
    .ok { st with opt := { st.opt with flag := { st.opt.flag with
      print_events := yes_or_no st.opt.flag.print_events g.optarg true } } }
  else if g.c = 0 ∧ g.longindex = 14 then
    .ok { st with opt := { st.opt with flag := { st.opt.flag with
      print_banded_aln := yes_or_no st.opt.flag.print_banded_aln g.optarg true } } }
  else if g.c = 0 ∧ g.longindex = 15 then
    .ok { st with opt := { st.opt with flag := { st.opt.flag with
      print_scaling := yes_or_no st.opt.flag.print_scaling g.optarg true } } }
  else if g.c = 0 ∧ g.longindex = 16 then
    .ok { st with opt := { st.opt with flag := { st.opt.flag with
      print_raw := yes_or_no st.opt.flag.print_raw g.optarg true } } }
  else if g.c = 0 ∧ g.longindex = 17 then
    if have_cuda then
      .ok { st with opt := { st.opt with flag := { st.opt.flag with
        disable_cuda := yes_or_no st.opt.flag.disable_cuda g.optarg true } } }
    else .ok st
  else if g.c = 0 ∧ g.longindex = 18 then
    .ok { st with opt := { st.opt with cuda_block_size := atoi g.optarg } }
  else if g.c = 0 ∧ g.longindex = 19 then
    .ok { st with opt := { st.opt with flag := { st.opt.flag with
      debug_brk := yes_or_no st.opt.flag.debug_brk g.optarg true } } }
  else .ok st

/-- Lines 173-235: the parsing loop over the successive returns of
`getopt_long`. -/
def parse_opts (have_cuda : Bool) : List GetOpt → Parsed → Except Exit Parsed
  | [], st => .ok st
  | g :: rest, st =>
    match parse_one have_cuda g st with
    | .error e => .error e
    | .ok st1 => parse_opts have_cuda rest st1

/-- Lines 237-289: the usage text is printed and the run ends when a file name
is missing or help was asked for. -/
def usage_check (st : Parsed) : Except Exit Parsed :=
  if st.fastqfile = none ∨ st.bamfilename = none ∨ st.fastafile = none ∨
      st.help_to_stdout = true then
    if st.help_to_stdout then .error .success else .error .failure
  else .ok st

/-- Lines 163-170: locals before the parsing loop; `opt0` is what `init_opt`
leaves in `opt`. -/
def parsed0 (opt0 : Opt) : Parsed :=
  { opt := opt0, fastqfile := none, bamfilename := none, fastafile := none,
    help_to_stdout := false }

/-- Configuration of the loops read off the parsed options, for a threads
library `wake`. -/
def cfg_of (opt : Opt) (wake : Nat → Bool) : Cfg :=
  wakeCfg opt.batch_size.toNat opt.flag.debug_brk wake

/-- Lines 154-339 of `meth_main` in the interleaved build: either the run ends
with an exit status before `init_core`, or the controller enters the loop. -/
def meth_main_entry (have_cuda : Bool) (opt0 : Opt) (wake : Nat → Bool) (args : List GetOpt)
    (input : List Nat) : Except Exit State :=
  match parse_opts have_cuda args (parsed0 opt0) with
  | .error e => .error e
  | .ok st =>
    match usage_check st with
    | .error e => .error e
    | .ok st1 => .ok (init (cfg_of st1.opt wake) input)

/-- A `-K` or `-t` return whose argument parses to less than 1. -/
def bad_size (g : GetOpt) : Prop :=
  (g.c = 'K'.toNat ∨ g.c = 't'.toNat) ∧ atoi g.optarg < 1

instance (g : GetOpt) : Decidable (bad_size g) := by unfold bad_size; infer_instance

/-- Defaults quoted in the comments of `long_options` (`init_opt` is defined
outside `meth_main.c`). -/
def opt_default : Opt :=
  { batch_size := 512, num_thread := 8, verbosity := 1, min_mapq := 30, cuda_block_size := 64,
    model_file := none,
    flag := { print_raw := false, secondary_yes := true, skip_unreadable := true,
              print_events := false, print_banded_aln := false, print_scaling := false,
              disable_cuda := false, debug_brk := false } }

/-! ## Notions used in the statements -/

/-- The `pthread_processor` task of slot `k` is spawned and not yet joined. -/
def unjoined_p (s : State) (k : Nat) : Prop :=
  (s.slots k).p ≠ .unspawned ∧ (s.slots k).p_joined = false

/-- The `pthread_post_processor` task of slot `k` is spawned and not yet joined. -/
def unjoined_pp (s : State) (k : Nat) : Prop :=
  (s.slots k).q ≠ .unspawned ∧ (s.slots k).q_joined = false

/-- The post-processor is at its `output_db` call or beyond. -/
def QPc.reached_output : QPc → Bool
  | .output_db | .free_db_tmp | .free_db | .free_arg | .exited => true
  | _ => false

/-- Batch `k` is allocated and not yet released by `free_db`. -/
def live (s : State) (k : Nat) : Prop :=
  (s.slots k).db_frees < (s.slots k).db_allocs

/-- The controller is inside `load_db` on batch `k`. -/
def loading (s : State) (k : Nat) : Prop := s.pc = .load_db ∧ s.db = k

/-- The processor task of batch `k` is inside `process_db`. -/
def processing (s : State) (k : Nat) : Prop := (s.slots k).p = .process_db

/-- The post-processor task of batch `k` is inside `output_db`. -/
def outputting (s : State) (k : Nat) : Prop := (s.slots k).q = .output_db

/-! ## Schedules -/

/-- Order of the task statements in `good_iter`: `true` is the processor,
`false` the post-processor. -/
def thread_order : List Bool :=
  [false, false, true, true, true, true, false, false, false, false, false, false]

/-- A schedule for one loop iteration in which the post-processor is already
waiting when the processor signals. -/
def good_iter (k : Nat) : List Tid :=
  List.replicate 8 .main ++ thread_order.map (fun b => if b then .proc k else .post k) ++ [.main]

/-- A schedule for a whole run of `iters` iterations. -/
def good_sched (iters : Nat) : List Tid :=
  ((List.range iters).map good_iter).flatten ++ List.replicate 4 .main

/-- A schedule prefix that loses the wake-up of batch 0: the controller runs up
to and including `pthread_create` of the processor, the processor runs to its
end, then the controller creates the post-processor, which locks the mutex and
enters `pthread_cond_wait`. -/
def lost_wakeup_start : List Tid :=
  List.replicate 6 .main ++ List.replicate 4 (.proc 0) ++ List.replicate 2 .main ++
    [.post 0, .post 0]

/-! ## Notions used to build a returning schedule -/

/-- Run the task statements of one slot in the given order (`true` is the
processor, `false` the post-processor), with the library behaviour `wake`. -/
def slot_run (wake : Bool) : List Bool → Slot → Option Slot
  | [], sl => some sl
  | b :: l, sl =>
    match (if b then pthread_processor sl else pthread_post_processor wake sl) with
    | none => none
    | some sl1 => slot_run wake l sl1

/-- Program point the controller reaches by its next statement. -/
def next_pc (cfg : Cfg) (s : State) : CPc :=
  match s.pc with
  | .loop_test => if cfg.batch_size ≤ s.status then .init_db else .final_join_p
  | .init_db => .load_db
  | .load_db => .join_p
  | .join_p => .malloc_arg
  | .malloc_arg => .create_p
  | .create_p => .join_pp
  | .join_pp => .create_pp
  | .create_pp => .brk_test
  | .brk_test => if cfg.debug_brk then .final_join_p else .loop_test
  | .final_join_p => .final_join_pp
  | .final_join_pp => .free_core
  | .free_core => .returned
  | .returned => .returned

/-- Both tasks of every slot below `e` have exited. -/
def all_exited (s : State) (e : Nat) : Prop :=
  ∀ k, k < e → (s.slots k).p = .exited ∧ (s.slots k).q = .exited

/-! ## The invariant holds in every reachable state -/

theorem inv_init (cfg : Cfg) (input : List Nat) : Inv cfg input (init cfg input) := by
  constructor <;> simp [init, np, jp, nq, jq, nl, na, ns, nout, Slot.fresh, cursorAt, CPc.in_body,
    CPc.has_status, CPc.after_loop, QPc.past_output]
  intro k
  constructor <;> simp [PPc.done_process, PPc.signalled, PPc.holds, QPc.holds, QPc.woken,
    QPc.past_output, QPc.past_tmp, QPc.past_free]

@[simp] theorem upd_same (f : Nat → Slot) (k : Nat) (v : Slot) : upd f k v k = v := by simp [upd]

theorem upd_other (f : Nat → Slot) (k j : Nat) (v : Slot) (h : j ≠ k) : upd f k v j = f j := by
  simp [upd, h]

theorem upd_apply (f : Nat → Slot) (k j : Nat) (v : Slot) :
    upd f k v j = if j = k then v else f j := rfl

theorem np_congr {s t : State} (hpc : t.pc = s.pc) (hn : t.n = s.n) : np t = np s := by
  simp [np, hpc, hn]

theorem jp_congr {s t : State} (hpc : t.pc = s.pc) (hn : t.n = s.n) : jp t = jp s := by
  simp [jp, hpc, hn]

theorem nq_congr {s t : State} (hpc : t.pc = s.pc) (hn : t.n = s.n) : nq t = nq s := by
  simp [nq, hpc, hn]

theorem jq_congr {s t : State} (hpc : t.pc = s.pc) (hn : t.n = s.n) : jq t = jq s := by
  simp [jq, hpc, hn]

/-- A slot update that leaves everything the controller relies on untouched. -/
theorem inv_upd {cfg : Cfg} {input : List Nat} {s : State} (h : Inv cfg input s) (k : Nat)
    (sl : Slot) (o : List (List Nat × Bool)) (hsame : sl.same (s.slots k))
    (hok : SlotOk (cfg.spurious k) sl)
    (ho : o.map Prod.fst =
        (List.range (jq s + if (upd s.slots k sl (jq s)).q.past_output then 1 else 0)).map
          (batchAt cfg input) ∧
      ((∀ k, cfg.spurious k = false) → ∀ x ∈ o, x.2 = true)) :
    Inv cfg input { s with slots := upd s.slots k sl, outputs := o } := by
  obtain ⟨hp, hq, hpj, hqj, hal, hld, har, hre⟩ := hsame
  constructor
  · exact h.n0
  · exact h.db_eq
  · exact h.ffp
  · exact h.tidp
  · exact h.ffq
  · exact h.tidq
  · intro j; have := h.p_sp j
    by_cases hj : j = k
    · subst hj; simp only [upd_same]; change _ ↔ j < np s; rw [← this, not_iff_not]; exact hp
    · simp only [upd_other _ _ _ _ hj]; exact this
  · intro j; have := h.p_jn j
    by_cases hj : j = k
    · subst hj; simp only [upd_same]; rw [hpj]; exact this
    · simp only [upd_other _ _ _ _ hj]; exact this
  · intro j; have := h.q_sp j
    by_cases hj : j = k
    · subst hj; simp only [upd_same]; change _ ↔ j < nq s; rw [← this, not_iff_not]; exact hq
    · simp only [upd_other _ _ _ _ hj]; exact this
  · intro j; have := h.q_jn j
    by_cases hj : j = k
    · subst hj; simp only [upd_same]; rw [hqj]; exact this
    · simp only [upd_other _ _ _ _ hj]; exact this
  · intro j; have := h.alloc j
    by_cases hj : j = k
    · subst hj; simp only [upd_same]; rw [hal]; exact this
    · simp only [upd_other _ _ _ _ hj]; exact this
  · intro j; have := h.ld j
    by_cases hj : j = k
    · subst hj; simp only [upd_same]; rw [hld]; exact this
    · simp only [upd_other _ _ _ _ hj]; exact this
  · intro j; have := h.arg j
    by_cases hj : j = k
    · subst hj; simp only [upd_same]; rw [har]; exact this
    · simp only [upd_other _ _ _ _ hj]; exact this
  · intro j; have := h.ok j
    by_cases hj : j = k
    · subst hj; simp only [upd_same]; exact hok
    · simp only [upd_other _ _ _ _ hj]; exact this
  · exact h.cur
  · intro j hlt; have := h.recs j hlt
    by_cases hj : j = k
    · subst hj; simp only [upd_same]; rw [hre]; exact this
    · simp only [upd_other _ _ _ _ hj]; exact this
  · exact h.lds
  · exact h.st0
  · exact h.st1
  · exact h.cont
  · exact h.nobrk
  · exact h.stop
  · exact ho

theorem nq_le_jq (s : State) : nq s ≤ jq s + 1 := by
  unfold nq jq; cases s.pc <;> simp only <;> omega

theorem nq_le_nl (s : State) : nq s ≤ nl s := by
  unfold nq nl; cases s.pc <;> simp only <;> omega

theorem np_le_jp (s : State) : np s ≤ jp s + 1 := by
  unfold np jp; cases s.pc <;> simp only <;> omega

theorem PPc.done_of_signalled (p : PPc) (h : p.signalled = true) : p.done_process = true := by
  cases p <;> simp_all [PPc.signalled, PPc.done_process]

theorem pthread_processor_ok {w : Bool} {sl sl' : Slot} (h : SlotOk w sl)
    (hs : pthread_processor sl = some sl') :
    SlotOk w sl' ∧ sl'.same sl ∧ sl'.q.past_output = sl.q.past_output := by
  obtain ⟨h1, h2, h3, h4, h5, h6, h7, h8, h9, h10, h11⟩ := h
  obtain ⟨a1, a2, a3, a4, a5, a6, a7, a8, a9, mu, sg, p, q, pj, qj⟩ := sl
  dsimp only at h1 h2 h3 h4 h5 h6 h7 h8 h9 h10 h11
  cases p <;> simp only [pthread_processor] at hs
  all_goals (try split at hs)
  all_goals (first | (cases hs; done) | skip)
  all_goals
    cases hs
    refine ⟨⟨?_, ?_, ?_, ?_, ?_, ?_, ?_, ?_, ?_, ?_, ?_⟩, ⟨?_, ?_, ?_, ?_, ?_, ?_, ?_, ?_⟩, ?_⟩ <;>
      first | rfl | assumption | simp_all [PPc.done_process, PPc.signalled, PPc.holds, QPc.woken, QPc.holds,
        QPc.past_output, QPc.past_tmp, QPc.past_free]

theorem pthread_post_processor_ok {w : Bool} {sl sl' : Slot} (h : SlotOk w sl)
    (hs : pthread_post_processor w sl = some sl') :
    SlotOk w sl' ∧ sl'.same sl ∧
      (sl.q ≠ .output_db → sl'.q.past_output = sl.q.past_output) ∧
      (sl.q = .output_db → sl'.q.past_output = true ∧ (w = false → sl.processed = true)) := by
  have hd := PPc.done_of_signalled sl.p
  obtain ⟨h1, h2, h3, h4, h5, h6, h7, h8, h9, h10, h11⟩ := h
  obtain ⟨a1, a2, a3, a4, a5, a6, a7, a8, a9, mu, sg, p, q, pj, qj⟩ := sl
  dsimp only at h1 h2 h3 h4 h5 h6 h7 h8 h9 h10 h11 hd
  cases q <;> simp only [pthread_post_processor] at hs
  all_goals (try split at hs)
  all_goals (first | (cases hs; done) | skip)
  all_goals
    cases hs
    refine ⟨⟨?_, ?_, ?_, ?_, ?_, ?_, ?_, ?_, ?_, ?_, ?_⟩, ⟨?_, ?_, ?_, ?_, ?_, ?_, ?_, ?_⟩, ?_, ?_⟩ <;>
      first | rfl | assumption | simp_all [QPc.woken, QPc.holds, QPc.past_output, QPc.past_tmp, QPc.past_free]

theorem inv_proc {cfg : Cfg} {input : List Nat} {s s' : State} {k : Nat}
    (h : Inv cfg input s) (hs : step_proc k s = some s') : Inv cfg input s' := by
  unfold step_proc at hs
  cases hps : pthread_processor (s.slots k) with
  | none => rw [hps] at hs; cases hs
  | some sl =>
    rw [hps] at hs
    cases hs
    obtain ⟨h1, h2, h3⟩ := pthread_processor_ok (h.ok k) hps
    have := inv_upd h k sl s.outputs h2 h1 (by
      refine ⟨?_, h.out.2⟩
      rw [h.out.1, nout]
      by_cases hj : jq s = k
      · subst hj; simp only [upd_same]; rw [h3]
      · simp only [upd_other _ _ _ _ hj])
    exact this

theorem inv_post {cfg : Cfg} {input : List Nat} {s s' : State} {k : Nat}
    (h : Inv cfg input s) (hs : step_post cfg k s = some s') : Inv cfg input s' := by
  unfold step_post at hs
  cases hps : pthread_post_processor (cfg.spurious k) (s.slots k) with
  | none => rw [hps] at hs; cases hs
  | some sl =>
    rw [hps] at hs
    cases hs
    obtain ⟨h1, h2, h3, h4⟩ := pthread_post_processor_ok (h.ok k) hps
    by_cases hq : (s.slots k).q = .output_db
    · obtain ⟨h5, h6⟩ := h4 hq
      have hk1 : k < nq s := (h.q_sp k).1 (by rw [hq]; simp)
      have hk2 : ¬ k < jq s := fun hlt => by
        have := (h.ok k).qj ((h.q_jn k).2 hlt)
        rw [hq] at this; cases this
      have hk3 := nq_le_jq s
      have hk4 := nq_le_nl s
      have hk : jq s = k := by omega
      have hr := h.recs k (by omega)
      apply inv_upd h k sl _ h2 h1
      rw [if_pos hq]
      constructor
      · rw [List.map_append, h.out.1, nout, hk, upd_same, h5, hq, hr]
        simp [QPc.past_output, List.range_succ]
      · intro hw x hx
        rcases List.mem_append.1 hx with hx | hx
        · exact h.out.2 hw x hx
        · rw [List.mem_singleton] at hx
          rw [hx]
          exact h6 (hw k)
    · have := h3 hq
      apply inv_upd h k sl _ h2 h1
      rw [if_neg hq]
      refine ⟨?_, h.out.2⟩
      rw [h.out.1, nout]
      by_cases hj : jq s = k
      · subst hj; simp only [upd_same]; rw [this]
      · simp only [upd_other _ _ _ _ hj]

theorem upd_self (f : Nat → Slot) (i : Nat) : upd f i (f i) = f := by
  funext j; by_cases hj : j = i
  · subst hj; simp
  · simp [upd_other _ _ _ _ hj]

/-- Frame rule for a controller statement: it rewrites the locals of the controller
and at most one slot. -/
theorem inv_frame {cfg : Cfg} {input : List Nat} {s t : State} (h : Inv cfg input s)
    (i : Nat) (sl : Slot) (ht : t.slots = upd s.slots i sl)
    (n0 : t.n = 0 → t.pc = .loop_test ∨ t.pc = .init_db)
    (db_eq : t.pc.in_body = true → t.db + 1 = t.n)
    (ffp : t.first_flag_p = true ↔ (0 < np t ∨ t.pc = .malloc_arg ∨ t.pc = .create_p))
    (tidp : 0 < np t → t.tid_p + 1 = np t)
    (ffq : t.first_flag_pp = true ↔ (0 < nq t ∨ t.pc = .create_pp))
    (tidq : 0 < nq t → t.tid_pp + 1 = nq t)
    (oth : ∀ k, k ≠ i → (k < np t ↔ k < np s) ∧ (k < jp t ↔ k < jp s) ∧ (k < nq t ↔ k < nq s) ∧
      (k < jq t ↔ k < jq s) ∧ (k < t.n ↔ k < s.n) ∧ (k < nl t ↔ k < nl s) ∧
      (k < na t ↔ k < na s) ∧ (k < nl t → k < nl s))
    (i_psp : sl.p ≠ .unspawned ↔ i < np t)
    (i_pjn : sl.p_joined = true ↔ i < jp t)
    (i_qsp : sl.q ≠ .unspawned ↔ i < nq t)
    (i_qjn : sl.q_joined = true ↔ i < jq t)
    (i_al : sl.db_allocs = if i < t.n then 1 else 0)
    (i_ld : sl.loaded = true ↔ i < nl t)
    (i_ar : sl.arg_allocs = if i < na t then 1 else 0)
    (i_ok : SlotOk (cfg.spurious i) sl)
    (i_re : i < nl t → sl.recs = batchAt cfg input i)
    (cur : t.cursor = cursorAt cfg input (nl t))
    (lds : t.loads = (List.range (nl t)).map (fun k => (batchAt cfg input k).length))
    (st0 : t.pc.has_status = true → t.n = 0 → t.status = cfg.batch_size)
    (st1 : t.pc.has_status = true → 0 < t.n → t.status = (batchAt cfg input (t.n - 1)).length)
    (cont : ∀ k, k < ns t → ¬ stopAt cfg input k)
    (nobrk : t.pc = .loop_test → 0 < t.n → cfg.debug_brk = false)
    (stop : t.pc.after_loop = true → stopAt cfg input (t.n - 1))
    (out : t.outputs = s.outputs) (no : nout t = nout s) :
    Inv cfg input t := by
  constructor
  · exact n0
  · exact db_eq
  · exact ffp
  · exact tidp
  · exact ffq
  · exact tidq
  · intro k; rw [ht]
    by_cases hk : k = i
    · subst hk; simpa using i_psp
    · rw [upd_other _ _ _ _ hk, (oth k hk).1]; exact h.p_sp k
  · intro k; rw [ht]
    by_cases hk : k = i
    · subst hk; simpa using i_pjn
    · rw [upd_other _ _ _ _ hk, (oth k hk).2.1]; exact h.p_jn k
  · intro k; rw [ht]
    by_cases hk : k = i
    · subst hk; simpa using i_qsp
    · rw [upd_other _ _ _ _ hk, (oth k hk).2.2.1]; exact h.q_sp k
  · intro k; rw [ht]
    by_cases hk : k = i
    · subst hk; simpa using i_qjn
    · rw [upd_other _ _ _ _ hk, (oth k hk).2.2.2.1]; exact h.q_jn k
  · intro k; rw [ht]
    by_cases hk : k = i
    · subst hk; simpa using i_al
    · rw [upd_other _ _ _ _ hk, h.alloc k]; simp only [(oth k hk).2.2.2.2.1]
  · intro k; rw [ht]
    by_cases hk : k = i
    · subst hk; simpa using i_ld
    · rw [upd_other _ _ _ _ hk, (oth k hk).2.2.2.2.2.1]; exact h.ld k
  · intro k; rw [ht]
    by_cases hk : k = i
    · subst hk; simpa using i_ar
    · rw [upd_other _ _ _ _ hk, h.arg k]; simp only [(oth k hk).2.2.2.2.2.2.1]
  · intro k; rw [ht]
    by_cases hk : k = i
    · subst hk; simpa using i_ok
    · rw [upd_other _ _ _ _ hk]; exact h.ok k
  · exact cur
  · intro k hlt; rw [ht]
    by_cases hk : k = i
    · subst hk; simpa using i_re hlt
    · rw [upd_other _ _ _ _ hk]; exact h.recs k ((oth k hk).2.2.2.2.2.2.2 hlt)
  · exact lds
  · exact st0
  · exact st1
  · exact cont
  · exact nobrk
  · exact stop
  · rw [out, no]; exact h.out

/-- Frame rule for a controller statement that touches no slot. -/
theorem inv_frame0 {cfg : Cfg} {input : List Nat} {s t : State} (h : Inv cfg input s)
    (n0 : t.n = 0 → t.pc = .loop_test ∨ t.pc = .init_db)
    (db_eq : t.pc.in_body = true → t.db + 1 = t.n)
    (ffp : t.first_flag_p = true ↔ (0 < np t ∨ t.pc = .malloc_arg ∨ t.pc = .create_p))
    (tidp : 0 < np t → t.tid_p + 1 = np t)
    (ffq : t.first_flag_pp = true ↔ (0 < nq t ∨ t.pc = .create_pp))
    (tidq : 0 < nq t → t.tid_pp + 1 = nq t)
    (oth : ∀ k, (k < np t ↔ k < np s) ∧ (k < jp t ↔ k < jp s) ∧ (k < nq t ↔ k < nq s) ∧
      (k < jq t ↔ k < jq s) ∧ (k < t.n ↔ k < s.n) ∧ (k < nl t ↔ k < nl s) ∧
      (k < na t ↔ k < na s))
    (cur : t.cursor = cursorAt cfg input (nl t))
    (lds : t.loads = (List.range (nl t)).map (fun k => (batchAt cfg input k).length))
    (st0 : t.pc.has_status = true → t.n = 0 → t.status = cfg.batch_size)
    (st1 : t.pc.has_status = true → 0 < t.n → t.status = (batchAt cfg input (t.n - 1)).length)
    (cont : ∀ k, k < ns t → ¬ stopAt cfg input k)
    (nobrk : t.pc = .loop_test → 0 < t.n → cfg.debug_brk = false)
    (stop : t.pc.after_loop = true → stopAt cfg input (t.n - 1))
    (out : t.outputs = s.outputs) (no : nout t = nout s) (ht : t.slots = s.slots) :
    Inv cfg input t := by
  obtain ⟨o1, o2, o3, o4, o5, o6, o7⟩ := oth 0
  refine inv_frame h 0 (s.slots 0) (by rw [ht, upd_self]) n0 db_eq ffp tidp ffq tidq
    (fun k _ => ?_) ?_ ?_ ?_ ?_ ?_ ?_ ?_ (h.ok 0) ?_ cur lds st0 st1 cont nobrk stop out no
  · obtain ⟨p1, p2, p3, p4, p5, p6, p7⟩ := oth k
    exact ⟨p1, p2, p3, p4, p5, p6, p7, p6.1⟩
  · rw [o1]; exact h.p_sp 0
  · rw [o2]; exact h.p_jn 0
  · rw [o3]; exact h.q_sp 0
  · rw [o4]; exact h.q_jn 0
  · rw [h.alloc 0]; simp only [o5]
  · rw [o6]; exact h.ld 0
  · rw [h.arg 0]; simp only [o7]
  · intro hlt; exact h.recs 0 (o6.1 hlt)

theorem inv_main_loop_test {cfg : Cfg} {input : List Nat} {s s' : State}
    (h : Inv cfg input s) (hpc : s.pc = .loop_test) (hs : meth_main_step cfg s = some s') :
    Inv cfg input s' := by
  unfold meth_main_step at hs
  simp only [hpc] at hs
  cases hs
  have h' := h
  obtain ⟨n0, db_eq, ffp, tidp, ffq, tidq, p_sp, p_jn, q_sp, q_jn, alloc, ld, arg, ok, cur, recs,
    lds, st0, st1, cont, nobrk, stop, out⟩ := h'
  clear p_sp p_jn q_sp q_jn alloc ld arg ok recs
  simp only [np, jp, nq, jq, nl, na, ns, nout, hpc, CPc.in_body, CPc.has_status, CPc.after_loop]
    at n0 db_eq ffp tidp ffq tidq cur lds st0 st1 cont nobrk stop out
  by_cases hc : cfg.batch_size ≤ s.status
  · simp only [hc, if_true]
    apply inv_frame0 h
    all_goals (try simp only [np, jp, nq, jq, nl, na, ns, nout, hpc, CPc.in_body, CPc.has_status, CPc.after_loop])
    all_goals try first
      | assumption | rfl | omega | (intro k; omega) | (simp; done)
      | (simpa using ffp) | (simpa using ffq)
    · intro k hk
      by_cases hk' : k < s.n - 1
      · exact cont k hk'
      · have hn : 0 < s.n := by omega
        have e : k = s.n - 1 := by omega
        intro hst
        rcases hst with hb | hl
        · rw [nobrk trivial hn] at hb; cases hb
        · rw [e, ← st1 trivial hn] at hl; omega
  · simp only [hc, if_false]
    have hn : 0 < s.n := by
      rcases Nat.eq_zero_or_pos s.n with h0 | h0
      · exact absurd (st0 trivial h0) (by omega)
      · exact h0
    apply inv_frame0 h
    all_goals (try simp only [np, jp, nq, jq, nl, na, ns, nout, hpc, CPc.in_body, CPc.has_status, CPc.after_loop])
    all_goals try first
      | assumption | rfl | omega | (intro k; omega) | (simp; done)
      | (simpa using ffp) | (simpa using ffq)
    · intro _
      right; rw [← st1 trivial hn]; omega

theorem inv_main_init_db {cfg : Cfg} {input : List Nat} {s s' : State}
    (h : Inv cfg input s) (hpc : s.pc = .init_db) (hs : meth_main_step cfg s = some s') :
    Inv cfg input s' := by
  unfold meth_main_step at hs
  simp only [hpc] at hs
  cases hs
  have h' := h
  obtain ⟨n0, db_eq, ffp, tidp, ffq, tidq, p_sp, p_jn, q_sp, q_jn, alloc, ld, arg, ok, cur, recs,
    lds, st0, st1, cont, nobrk, stop, out⟩ := h'
  have a1 := p_sp s.n; have a2 := p_jn s.n; have a3 := q_sp s.n; have a4 := q_jn s.n
  have a5 := alloc s.n; have a6 := ld s.n; have a7 := arg s.n; have a8 := ok s.n
  have a9 := recs s.n
  clear p_sp p_jn q_sp q_jn alloc ld arg ok recs
  simp only [np, jp, nq, jq, nl, na, ns, nout, CPc.in_body, CPc.has_status, CPc.after_loop, hpc]
    at n0 db_eq ffp tidp ffq tidq a1 a2 a3 a4 a5 a6 a7 a9 cur lds st0 st1 cont nobrk stop out
  apply inv_frame h s.n _ rfl
  all_goals try simp only [np, jp, nq, jq, nl, na, ns, nout, CPc.in_body, CPc.has_status, CPc.after_loop, hpc]
  all_goals try first
    | assumption | rfl | omega | (intro k hk; omega) | (simp; done)
    | (simp; omega) | (intro k hk; simp; omega)
    | (simpa using ffp) | (simpa using ffq)
    | (obtain ⟨b1, b2, b3, b4, b5, b6, b7, b8, b9, b10, b11⟩ := a8
       constructor <;> first | assumption | (simp_all [PPc.done_process, PPc.signalled, PPc.holds, QPc.holds, QPc.woken, QPc.past_output, QPc.past_tmp, QPc.past_free]; done))
    | (rw [a5]; split_ifs <;> omega) | (rw [a7]; split_ifs <;> omega)
    | (simp_all; done)
    | (simp_all; omega)
  · have e : s.n + 1 - 2 = s.n - 1 := by omega
    simp only [e, upd_apply]
    by_cases hz : s.n - 1 = s.n
    · simp [hz]
    · simp [hz]

theorem inv_main_load_db {cfg : Cfg} {input : List Nat} {s s' : State}
    (h : Inv cfg input s) (hpc : s.pc = .load_db) (hs : meth_main_step cfg s = some s') :
    Inv cfg input s' := by
  unfold meth_main_step at hs
  simp only [hpc] at hs
  cases hs
  have h' := h
  obtain ⟨n0, db_eq, ffp, tidp, ffq, tidq, p_sp, p_jn, q_sp, q_jn, alloc, ld, arg, ok, cur, recs,
    lds, st0, st1, cont, nobrk, stop, out⟩ := h'
  have a1 := p_sp s.db; have a2 := p_jn s.db; have a3 := q_sp s.db; have a4 := q_jn s.db
  have a5 := alloc s.db; have a6 := ld s.db; have a7 := arg s.db; have a8 := ok s.db
  have a9 := recs s.db
  have hdb : s.db + 1 = s.n := db_eq (by rw [hpc]; rfl)
  clear p_sp p_jn q_sp q_jn alloc ld arg ok recs
  simp only [np, jp, nq, jq, nl, na, ns, nout, CPc.in_body, CPc.has_status, CPc.after_loop, hpc]
    at n0 db_eq ffp tidp ffq tidq a1 a2 a3 a4 a5 a6 a7 a9 cur lds st0 st1 cont nobrk stop out
  have e1 : s.n - 1 = s.db := by omega
  have e2 : s.n = s.db + 1 := by omega
  simp only [e1] at cur lds
  apply inv_frame h s.db _ rfl
  all_goals try simp only [np, jp, nq, jq, nl, na, ns, nout, CPc.in_body, CPc.has_status, CPc.after_loop, hpc]
  all_goals try first
    | assumption | rfl | omega | (intro k hk; omega) | (simp; done)
    | (simp; omega) | (intro k hk; simp; omega)
    | (simpa using ffp) | (simpa using ffq)
    | (obtain ⟨b1, b2, b3, b4, b5, b6, b7, b8, b9, b10, b11⟩ := a8
       constructor <;> first | assumption | (simp_all [PPc.done_process, PPc.signalled, PPc.holds, QPc.holds, QPc.woken, QPc.past_output, QPc.past_tmp, QPc.past_free]; done))
    | (rw [a5]; split_ifs <;> omega) | (rw [a7]; split_ifs <;> omega)
    | (simp_all; done)
    | (simp_all; omega)
  · intro _; rw [cur]; rfl
  · rw [e2, cur]; rfl
  · rw [e2, List.range_succ, List.map_append, lds, cur]; rfl
  · intro _ _; rw [e1, cur]; rfl
  · simp only [upd_apply]
    by_cases hz : s.n - 2 = s.db <;> simp [hz]

theorem inv_main_join_p {cfg : Cfg} {input : List Nat} {s s' : State}
    (h : Inv cfg input s) (hpc : s.pc = .join_p) (hs : meth_main_step cfg s = some s') :
    Inv cfg input s' := by
  unfold meth_main_step at hs
  simp only [hpc] at hs
  split at hs
  · rename_i hf
    split at hs
    · rename_i hx
      cases hs
      have h' := h
      obtain ⟨n0, db_eq, ffp, tidp, ffq, tidq, p_sp, p_jn, q_sp, q_jn, alloc, ld, arg, ok, cur, recs,
        lds, st0, st1, cont, nobrk, stop, out⟩ := h'
      have a1 := p_sp s.tid_p; have a2 := p_jn s.tid_p; have a3 := q_sp s.tid_p; have a4 := q_jn s.tid_p
      have a5 := alloc s.tid_p; have a6 := ld s.tid_p; have a7 := arg s.tid_p; have a8 := ok s.tid_p
      have a9 := recs s.tid_p
      have hdb : s.db + 1 = s.n := db_eq (by rw [hpc]; rfl)
      have hnp : 0 < np s := by
        rcases ffp.1 hf with h1 | h1 | h1
        · exact h1
        · rw [hpc] at h1; cases h1
        · rw [hpc] at h1; cases h1
      have htid := tidp hnp
      simp only [np, hpc] at hnp htid
      clear p_sp p_jn q_sp q_jn alloc ld arg ok recs
      simp only [np, jp, nq, jq, nl, na, ns, nout, CPc.in_body, CPc.has_status, CPc.after_loop, hpc]
        at n0 db_eq ffp tidp ffq tidq a1 a2 a3 a4 a5 a6 a7 a9 cur lds st0 st1 cont nobrk stop out
      apply inv_frame h s.tid_p _ rfl
      all_goals try simp only [np, jp, nq, jq, nl, na, ns, nout, CPc.in_body, CPc.has_status, CPc.after_loop, hpc]
      all_goals try first
        | assumption | rfl | omega | (intro k hk; omega) | (simp; done)
        | (simp; omega) | (intro k hk; simp; omega)
        | (simpa using ffp) | (simpa using ffq)
        | (obtain ⟨b1, b2, b3, b4, b5, b6, b7, b8, b9, b10, b11⟩ := a8
           constructor <;> first | assumption | (simp_all [PPc.done_process, PPc.signalled, PPc.holds, QPc.holds, QPc.woken, QPc.past_output, QPc.past_tmp, QPc.past_free]; done))
        | (rw [a5]; split_ifs <;> omega) | (rw [a7]; split_ifs <;> omega)
        | (simp_all; done)
        | (simp_all; omega)
      · simp only [upd_apply]
        by_cases hz : s.n - 2 = s.tid_p <;> simp [hz]
    · cases hs
  · rename_i hf
    cases hs
    have h' := h
    obtain ⟨n0, db_eq, ffp, tidp, ffq, tidq, p_sp, p_jn, q_sp, q_jn, alloc, ld, arg, ok, cur, recs,
      lds, st0, st1, cont, nobrk, stop, out⟩ := h'
    have a1 := p_sp s.db; have a2 := p_jn s.db; have a3 := q_sp s.db; have a4 := q_jn s.db
    have a5 := alloc s.db; have a6 := ld s.db; have a7 := arg s.db; have a8 := ok s.db
    have a9 := recs s.db
    have hdb : s.db + 1 = s.n := db_eq (by rw [hpc]; rfl)
    have hn1 : ¬ 0 < np s := fun hh => hf (ffp.2 (Or.inl hh))
    simp only [np, hpc] at hn1
    clear p_sp p_jn q_sp q_jn alloc ld arg ok recs
    simp only [np, jp, nq, jq, nl, na, ns, nout, CPc.in_body, CPc.has_status, CPc.after_loop, hpc]
      at n0 db_eq ffp tidp ffq tidq a1 a2 a3 a4 a5 a6 a7 a9 cur lds st0 st1 cont nobrk stop out
    apply inv_frame0 h
    all_goals try simp only [np, jp, nq, jq, nl, na, ns, nout, CPc.in_body, CPc.has_status, CPc.after_loop, hpc]
    all_goals try first
      | assumption | rfl | omega | (intro k hk; omega) | (simp; done)
      | (simp; omega) | (intro k hk; simp; omega)
      | (simpa using ffp) | (simpa using ffq)
      | (obtain ⟨b1, b2, b3, b4, b5, b6, b7, b8, b9, b10, b11⟩ := a8
         constructor <;> first | assumption | (simp_all [PPc.done_process, PPc.signalled, PPc.holds, QPc.holds, QPc.woken, QPc.past_output, QPc.past_tmp, QPc.past_free]; done))
      | (rw [a5]; split_ifs <;> omega) | (rw [a7]; split_ifs <;> omega)
      | (simp_all; done)
      | (simp_all; omega)

theorem inv_main_malloc_arg {cfg : Cfg} {input : List Nat} {s s' : State}
    (h : Inv cfg input s) (hpc : s.pc = .malloc_arg) (hs : meth_main_step cfg s = some s') :
    Inv cfg input s' := by
  unfold meth_main_step at hs
  simp only [hpc] at hs
  cases hs
  have h' := h
  obtain ⟨n0, db_eq, ffp, tidp, ffq, tidq, p_sp, p_jn, q_sp, q_jn, alloc, ld, arg, ok, cur, recs,
    lds, st0, st1, cont, nobrk, stop, out⟩ := h'
  have a1 := p_sp s.db; have a2 := p_jn s.db; have a3 := q_sp s.db; have a4 := q_jn s.db
  have a5 := alloc s.db; have a6 := ld s.db; have a7 := arg s.db; have a8 := ok s.db
  have a9 := recs s.db
  have hdb : s.db + 1 = s.n := db_eq (by rw [hpc]; rfl)
  clear p_sp p_jn q_sp q_jn alloc ld arg ok recs
  simp only [np, jp, nq, jq, nl, na, ns, nout, CPc.in_body, CPc.has_status, CPc.after_loop, hpc]
    at n0 db_eq ffp tidp ffq tidq a1 a2 a3 a4 a5 a6 a7 a9 cur lds st0 st1 cont nobrk stop out
  apply inv_frame h s.db _ rfl
  all_goals try simp only [np, jp, nq, jq, nl, na, ns, nout, CPc.in_body, CPc.has_status, CPc.after_loop, hpc]
  all_goals try first
    | assumption | rfl | omega | (intro k hk; omega) | (simp; done)
    | (simp; omega) | (intro k hk; simp; omega)
    | (simpa using ffp) | (simpa using ffq)
    | (obtain ⟨b1, b2, b3, b4, b5, b6, b7, b8, b9, b10, b11⟩ := a8
       constructor <;> first | assumption | (simp_all [PPc.done_process, PPc.signalled, PPc.holds, QPc.holds, QPc.woken, QPc.past_output, QPc.past_tmp, QPc.past_free]; done))
    | (rw [a5]; split_ifs <;> omega) | (rw [a7]; split_ifs <;> omega)
    | (simp_all; done)
    | (simp_all; omega)
  · simp only [upd_apply]
    by_cases hz : s.n - 2 = s.db <;> simp [hz]

theorem inv_main_create_p {cfg : Cfg} {input : List Nat} {s s' : State}
    (h : Inv cfg input s) (hpc : s.pc = .create_p) (hs : meth_main_step cfg s = some s') :
    Inv cfg input s' := by
  unfold meth_main_step at hs
  simp only [hpc] at hs
  cases hs
  have h' := h
  obtain ⟨n0, db_eq, ffp, tidp, ffq, tidq, p_sp, p_jn, q_sp, q_jn, alloc, ld, arg, ok, cur, recs,
    lds, st0, st1, cont, nobrk, stop, out⟩ := h'
  have a1 := p_sp s.db; have a2 := p_jn s.db; have a3 := q_sp s.db; have a4 := q_jn s.db
  have a5 := alloc s.db; have a6 := ld s.db; have a7 := arg s.db; have a8 := ok s.db
  have a9 := recs s.db
  have hdb : s.db + 1 = s.n := db_eq (by rw [hpc]; rfl)
  have hp0 : (s.slots s.db).p = .unspawned := by
    by_contra hc; have := (p_sp s.db).1 hc; simp only [np, hpc] at this; omega
  have hq0 : (s.slots s.db).q = .unspawned := by
    by_contra hc; have := (q_sp s.db).1 hc; simp only [nq, hpc] at this; omega
  clear p_sp p_jn q_sp q_jn alloc ld arg ok recs
  simp only [np, jp, nq, jq, nl, na, ns, nout, CPc.in_body, CPc.has_status, CPc.after_loop, hpc]
    at n0 db_eq ffp tidp ffq tidq a1 a2 a3 a4 a5 a6 a7 a9 cur lds st0 st1 cont nobrk stop out
  apply inv_frame h s.db _ rfl
  all_goals try simp only [np, jp, nq, jq, nl, na, ns, nout, CPc.in_body, CPc.has_status, CPc.after_loop, hpc]
  all_goals try first
    | assumption | rfl | omega | (intro k hk; omega) | (simp; done)
    | (simp; omega) | (intro k hk; simp; omega)
    | (simpa using ffp) | (simpa using ffq)
    | (obtain ⟨b1, b2, b3, b4, b5, b6, b7, b8, b9, b10, b11⟩ := a8
       constructor <;> first | assumption | (simp_all [PPc.done_process, PPc.signalled, PPc.holds, QPc.holds, QPc.woken, QPc.past_output, QPc.past_tmp, QPc.past_free]; done))
    | (rw [a5]; split_ifs <;> omega) | (rw [a7]; split_ifs <;> omega)
    | (simp_all; done)
    | (simp_all; omega)
  · simp only [upd_apply]
    by_cases hz : s.n - 2 = s.db <;> simp [hz]

theorem inv_main_join_pp {cfg : Cfg} {input : List Nat} {s s' : State}
    (h : Inv cfg input s) (hpc : s.pc = .join_pp) (hs : meth_main_step cfg s = some s') :
    Inv cfg input s' := by
  unfold meth_main_step at hs
  simp only [hpc] at hs
  split at hs
  · rename_i hf
    split at hs
    · rename_i hx
      cases hs
      have h' := h
      obtain ⟨n0, db_eq, ffp, tidp, ffq, tidq, p_sp, p_jn, q_sp, q_jn, alloc, ld, arg, ok, cur, recs,
        lds, st0, st1, cont, nobrk, stop, out⟩ := h'
      have a1 := p_sp s.tid_pp; have a2 := p_jn s.tid_pp; have a3 := q_sp s.tid_pp; have a4 := q_jn s.tid_pp
      have a5 := alloc s.tid_pp; have a6 := ld s.tid_pp; have a7 := arg s.tid_pp; have a8 := ok s.tid_pp
      have a9 := recs s.tid_pp
      have hdb : s.db + 1 = s.n := db_eq (by rw [hpc]; rfl)
      have hq0 : (s.slots s.db).q = .unspawned := by
        by_contra hc; have := (q_sp s.db).1 hc; simp only [nq, hpc] at this; omega
      have hnq : 0 < nq s := by
        rcases ffq.1 hf with h1 | h1
        · exact h1
        · rw [hpc] at h1; cases h1
      have htid := tidq hnq
      simp only [nq, hpc] at hnq htid
      clear p_sp p_jn q_sp q_jn alloc ld arg ok recs
      simp only [np, jp, nq, jq, nl, na, ns, nout, CPc.in_body, CPc.has_status, CPc.after_loop, hpc]
        at n0 db_eq ffp tidp ffq tidq a1 a2 a3 a4 a5 a6 a7 a9 cur lds st0 st1 cont nobrk stop out
      apply inv_frame h s.tid_pp _ rfl
      all_goals try simp only [np, jp, nq, jq, nl, na, ns, nout, CPc.in_body, CPc.has_status, CPc.after_loop, hpc]
      all_goals try first
        | assumption | rfl | omega | (intro k hk; omega) | (simp; done)
        | (simp; omega) | (intro k hk; simp; omega)
        | (simpa using ffp) | (simpa using ffq)
        | (obtain ⟨b1, b2, b3, b4, b5, b6, b7, b8, b9, b10, b11⟩ := a8
           constructor <;> first | assumption | (simp_all [PPc.done_process, PPc.signalled, PPc.holds, QPc.holds, QPc.woken, QPc.past_output, QPc.past_tmp, QPc.past_free]; done))
        | (rw [a5]; split_ifs <;> omega) | (rw [a7]; split_ifs <;> omega)
        | (simp_all; done)
        | (simp_all; omega)
      · have e1 : s.n - 2 = s.tid_pp := by omega
        have e2 : s.n - 1 = s.db := by omega
        have e3 : s.db ≠ s.tid_pp := by omega
        simp only [upd_apply, e1, e2, if_neg e3, hq0, hx, QPc.past_output]
        simp
        omega
    · cases hs
  · rename_i hf
    cases hs
    have h' := h
    obtain ⟨n0, db_eq, ffp, tidp, ffq, tidq, p_sp, p_jn, q_sp, q_jn, alloc, ld, arg, ok, cur, recs,
      lds, st0, st1, cont, nobrk, stop, out⟩ := h'
    have a1 := p_sp s.db; have a2 := p_jn s.db; have a3 := q_sp s.db; have a4 := q_jn s.db
    have a5 := alloc s.db; have a6 := ld s.db; have a7 := arg s.db; have a8 := ok s.db
    have a9 := recs s.db
    have hdb : s.db + 1 = s.n := db_eq (by rw [hpc]; rfl)
    have hn1 : ¬ 0 < nq s := fun hh => hf (ffq.2 (Or.inl hh))
    simp only [nq, hpc] at hn1
    clear p_sp p_jn q_sp q_jn alloc ld arg ok recs
    simp only [np, jp, nq, jq, nl, na, ns, nout, CPc.in_body, CPc.has_status, CPc.after_loop, hpc]
      at n0 db_eq ffp tidp ffq tidq a1 a2 a3 a4 a5 a6 a7 a9 cur lds st0 st1 cont nobrk stop out
    apply inv_frame0 h
    all_goals try simp only [np, jp, nq, jq, nl, na, ns, nout, CPc.in_body, CPc.has_status, CPc.after_loop, hpc]
    all_goals try first
      | assumption | rfl | omega | (intro k hk; omega) | (simp; done)
      | (simp; omega) | (intro k hk; simp; omega)
      | (simpa using ffp) | (simpa using ffq)
      | (obtain ⟨b1, b2, b3, b4, b5, b6, b7, b8, b9, b10, b11⟩ := a8
         constructor <;> first | assumption | (simp_all [PPc.done_process, PPc.signalled, PPc.holds, QPc.holds, QPc.woken, QPc.past_output, QPc.past_tmp, QPc.past_free]; done))
      | (rw [a5]; split_ifs <;> omega) | (rw [a7]; split_ifs <;> omega)
      | (simp_all; done)
      | (simp_all; omega)
    · have e : s.n - 1 = s.n - 2 := by omega
      simp only [e]

theorem inv_main_create_pp {cfg : Cfg} {input : List Nat} {s s' : State}
    (h : Inv cfg input s) (hpc : s.pc = .create_pp) (hs : meth_main_step cfg s = some s') :
    Inv cfg input s' := by
  unfold meth_main_step at hs
  simp only [hpc] at hs
  cases hs
  have h' := h
  obtain ⟨n0, db_eq, ffp, tidp, ffq, tidq, p_sp, p_jn, q_sp, q_jn, alloc, ld, arg, ok, cur, recs,
    lds, st0, st1, cont, nobrk, stop, out⟩ := h'
  have a1 := p_sp s.db; have a2 := p_jn s.db; have a3 := q_sp s.db; have a4 := q_jn s.db
  have a5 := alloc s.db; have a6 := ld s.db; have a7 := arg s.db; have a8 := ok s.db
  have a9 := recs s.db
  have hdb : s.db + 1 = s.n := db_eq (by rw [hpc]; rfl)
  have hq0 : (s.slots s.db).q = .unspawned := by
    by_contra hc; have := (q_sp s.db).1 hc; simp only [nq, hpc] at this; omega
  clear p_sp p_jn q_sp q_jn alloc ld arg ok recs
  simp only [np, jp, nq, jq, nl, na, ns, nout, CPc.in_body, CPc.has_status, CPc.after_loop, hpc]
    at n0 db_eq ffp tidp ffq tidq a1 a2 a3 a4 a5 a6 a7 a9 cur lds st0 st1 cont nobrk stop out
  apply inv_frame h s.db _ rfl
  all_goals try simp only [np, jp, nq, jq, nl, na, ns, nout, CPc.in_body, CPc.has_status, CPc.after_loop, hpc]
  all_goals try first
    | assumption | rfl | omega | (intro k hk; omega) | (simp; done)
    | (simp; omega) | (intro k hk; simp; omega)
    | (simpa using ffp) | (simpa using ffq)
    | (obtain ⟨b1, b2, b3, b4, b5, b6, b7, b8, b9, b10, b11⟩ := a8
       constructor <;> first | assumption | (simp_all [PPc.done_process, PPc.signalled, PPc.holds, QPc.holds, QPc.woken, QPc.past_output, QPc.past_tmp, QPc.past_free]; done))
    | (rw [a5]; split_ifs <;> omega) | (rw [a7]; split_ifs <;> omega)
    | (simp_all; done)
    | (simp_all; omega)
  · have e : s.n - 1 = s.db := by omega
    simp [upd_apply, e, hq0, QPc.past_output]

theorem inv_main_brk_test {cfg : Cfg} {input : List Nat} {s s' : State}
    (h : Inv cfg input s) (hpc : s.pc = .brk_test) (hs : meth_main_step cfg s = some s') :
    Inv cfg input s' := by
  unfold meth_main_step at hs
  simp only [hpc] at hs
  cases hs
  have h' := h
  obtain ⟨n0, db_eq, ffp, tidp, ffq, tidq, p_sp, p_jn, q_sp, q_jn, alloc, ld, arg, ok, cur, recs,
    lds, st0, st1, cont, nobrk, stop, out⟩ := h'
  have a1 := p_sp s.db; have a2 := p_jn s.db; have a3 := q_sp s.db; have a4 := q_jn s.db
  have a5 := alloc s.db; have a6 := ld s.db; have a7 := arg s.db; have a8 := ok s.db
  have a9 := recs s.db
  have hdb : s.db + 1 = s.n := db_eq (by rw [hpc]; rfl)
  clear p_sp p_jn q_sp q_jn alloc ld arg ok recs
  simp only [np, jp, nq, jq, nl, na, ns, nout, CPc.in_body, CPc.has_status, CPc.after_loop, hpc]
    at n0 db_eq ffp tidp ffq tidq a1 a2 a3 a4 a5 a6 a7 a9 cur lds st0 st1 cont nobrk stop out
  by_cases hb : cfg.debug_brk = true
  · simp only [hb, if_true]
    apply inv_frame0 h
    all_goals try simp only [np, jp, nq, jq, nl, na, ns, nout, CPc.in_body, CPc.has_status, CPc.after_loop, hpc]
    all_goals try first
      | assumption | rfl | omega | (intro k hk; omega) | (simp; done)
      | (simp; omega) | (intro k hk; simp; omega)
      | (simpa using ffp) | (simpa using ffq)
      | (obtain ⟨b1, b2, b3, b4, b5, b6, b7, b8, b9, b10, b11⟩ := a8
         constructor <;> first | assumption | (simp_all [PPc.done_process, PPc.signalled, PPc.holds, QPc.holds, QPc.woken, QPc.past_output, QPc.past_tmp, QPc.past_free]; done))
      | (rw [a5]; split_ifs <;> omega) | (rw [a7]; split_ifs <;> omega)
      | (simp_all; done)
      | (simp_all; omega)
    · intro _; exact Or.inl hb
  · simp only [hb]
    apply inv_frame0 h
    all_goals try simp only [np, jp, nq, jq, nl, na, ns, nout, CPc.in_body, CPc.has_status, CPc.after_loop, hpc]
    all_goals try first
      | assumption | rfl | omega | (intro k hk; omega) | (simp; done)
      | (simp; omega) | (intro k hk; simp; omega)
      | (simpa using ffp) | (simpa using ffq)
      | (obtain ⟨b1, b2, b3, b4, b5, b6, b7, b8, b9, b10, b11⟩ := a8
         constructor <;> first | assumption | (simp_all [PPc.done_process, PPc.signalled, PPc.holds, QPc.holds, QPc.woken, QPc.past_output, QPc.past_tmp, QPc.past_free]; done))
      | (rw [a5]; split_ifs <;> omega) | (rw [a7]; split_ifs <;> omega)
      | (simp_all; done)
      | (simp_all; omega)

theorem inv_main_final_join_p {cfg : Cfg} {input : List Nat} {s s' : State}
    (h : Inv cfg input s) (hpc : s.pc = .final_join_p) (hs : meth_main_step cfg s = some s') :
    Inv cfg input s' := by
  unfold meth_main_step at hs
  simp only [hpc] at hs
  split at hs
  · rename_i hx
    cases hs
    have h' := h
    obtain ⟨n0, db_eq, ffp, tidp, ffq, tidq, p_sp, p_jn, q_sp, q_jn, alloc, ld, arg, ok, cur, recs,
      lds, st0, st1, cont, nobrk, stop, out⟩ := h'
    have a1 := p_sp s.tid_p; have a2 := p_jn s.tid_p; have a3 := q_sp s.tid_p; have a4 := q_jn s.tid_p
    have a5 := alloc s.tid_p; have a6 := ld s.tid_p; have a7 := arg s.tid_p; have a8 := ok s.tid_p
    have a9 := recs s.tid_p
    have hn : 0 < s.n := by
      rcases Nat.eq_zero_or_pos s.n with h0 | h0
      · rcases n0 h0 with h1 | h1 <;> rw [hpc] at h1 <;> cases h1
      · exact h0
    have htid := tidp (by simp only [np, hpc]; exact hn)
    simp only [np, hpc] at htid
    clear p_sp p_jn q_sp q_jn alloc ld arg ok recs
    simp only [np, jp, nq, jq, nl, na, ns, nout, CPc.in_body, CPc.has_status, CPc.after_loop, hpc]
      at n0 db_eq ffp tidp ffq tidq a1 a2 a3 a4 a5 a6 a7 a9 cur lds st0 st1 cont nobrk stop out
    apply inv_frame h s.tid_p _ rfl
    all_goals try simp only [np, jp, nq, jq, nl, na, ns, nout, CPc.in_body, CPc.has_status, CPc.after_loop, hpc]
    all_goals try first
      | assumption | rfl | omega | (intro k hk; omega) | (simp; done)
      | (simp; omega) | (intro k hk; simp; omega)
      | (simpa using ffp) | (simpa using ffq)
      | (obtain ⟨b1, b2, b3, b4, b5, b6, b7, b8, b9, b10, b11⟩ := a8
         constructor <;> first | assumption | (simp_all [PPc.done_process, PPc.signalled, PPc.holds, QPc.holds, QPc.woken, QPc.past_output, QPc.past_tmp, QPc.past_free]; done))
      | (rw [a5]; split_ifs <;> omega) | (rw [a7]; split_ifs <;> omega)
      | (simp_all; done)
      | (simp_all; omega)
    · simp only [upd_apply]
      by_cases hz : s.n - 1 = s.tid_p <;> simp [hz]
  · cases hs

theorem inv_main_final_join_pp {cfg : Cfg} {input : List Nat} {s s' : State}
    (h : Inv cfg input s) (hpc : s.pc = .final_join_pp) (hs : meth_main_step cfg s = some s') :
    Inv cfg input s' := by
  unfold meth_main_step at hs
  simp only [hpc] at hs
  split at hs
  · rename_i hx
    cases hs
    have h' := h
    obtain ⟨n0, db_eq, ffp, tidp, ffq, tidq, p_sp, p_jn, q_sp, q_jn, alloc, ld, arg, ok, cur, recs,
      lds, st0, st1, cont, nobrk, stop, out⟩ := h'
    have a1 := p_sp s.tid_pp; have a2 := p_jn s.tid_pp; have a3 := q_sp s.tid_pp; have a4 := q_jn s.tid_pp
    have a5 := alloc s.tid_pp; have a6 := ld s.tid_pp; have a7 := arg s.tid_pp; have a8 := ok s.tid_pp
    have a9 := recs s.tid_pp
    have hn : 0 < s.n := by
      rcases Nat.eq_zero_or_pos s.n with h0 | h0
      · rcases n0 h0 with h1 | h1 <;> rw [hpc] at h1 <;> cases h1
      · exact h0
    have htid := tidq (by simp only [nq, hpc]; exact hn)
    simp only [nq, hpc] at htid
    have hqn : (s.slots s.n).q = .unspawned := by
      by_contra hc; have := (q_sp s.n).1 hc; simp only [nq, hpc] at this; omega
    clear p_sp p_jn q_sp q_jn alloc ld arg ok recs
    simp only [np, jp, nq, jq, nl, na, ns, nout, CPc.in_body, CPc.has_status, CPc.after_loop, hpc]
      at n0 db_eq ffp tidp ffq tidq a1 a2 a3 a4 a5 a6 a7 a9 cur lds st0 st1 cont nobrk stop out
    apply inv_frame h s.tid_pp _ rfl
    all_goals try simp only [np, jp, nq, jq, nl, na, ns, nout, CPc.in_body, CPc.has_status, CPc.after_loop, hpc]
    all_goals try first
      | assumption | rfl | omega | (intro k hk; omega) | (simp; done)
      | (simp; omega) | (intro k hk; simp; omega)
      | (simpa using ffp) | (simpa using ffq)
      | (obtain ⟨b1, b2, b3, b4, b5, b6, b7, b8, b9, b10, b11⟩ := a8
         constructor <;> first | assumption | (simp_all [PPc.done_process, PPc.signalled, PPc.holds, QPc.holds, QPc.woken, QPc.past_output, QPc.past_tmp, QPc.past_free]; done))
      | (rw [a5]; split_ifs <;> omega) | (rw [a7]; split_ifs <;> omega)
      | (simp_all; done)
      | (simp_all; omega)
    · have e1 : s.n - 1 = s.tid_pp := by omega
      have e3 : s.n ≠ s.tid_pp := by omega
      simp only [upd_apply, e1, if_neg e3, hqn, hx, QPc.past_output]
      simp
      omega
  · cases hs

theorem inv_main_free_core {cfg : Cfg} {input : List Nat} {s s' : State}
    (h : Inv cfg input s) (hpc : s.pc = .free_core) (hs : meth_main_step cfg s = some s') :
    Inv cfg input s' := by
  unfold meth_main_step at hs
  simp only [hpc] at hs
  cases hs
  have h' := h
  obtain ⟨n0, db_eq, ffp, tidp, ffq, tidq, p_sp, p_jn, q_sp, q_jn, alloc, ld, arg, ok, cur, recs,
    lds, st0, st1, cont, nobrk, stop, out⟩ := h'
  have a1 := p_sp s.db; have a2 := p_jn s.db; have a3 := q_sp s.db; have a4 := q_jn s.db
  have a5 := alloc s.db; have a6 := ld s.db; have a7 := arg s.db; have a8 := ok s.db
  have a9 := recs s.db
  clear p_sp p_jn q_sp q_jn alloc ld arg ok recs
  simp only [np, jp, nq, jq, nl, na, ns, nout, CPc.in_body, CPc.has_status, CPc.after_loop, hpc]
    at n0 db_eq ffp tidp ffq tidq a1 a2 a3 a4 a5 a6 a7 a9 cur lds st0 st1 cont nobrk stop out
  apply inv_frame0 h
  all_goals try simp only [np, jp, nq, jq, nl, na, ns, nout, CPc.in_body, CPc.has_status, CPc.after_loop, hpc]
  all_goals try first
    | assumption | rfl | omega | (intro k hk; omega) | (simp; done)
    | (simp; omega) | (intro k hk; simp; omega)
    | (simpa using ffp) | (simpa using ffq)
    | (obtain ⟨b1, b2, b3, b4, b5, b6, b7, b8, b9, b10, b11⟩ := a8
       constructor <;> first | assumption | (simp_all [PPc.done_process, PPc.signalled, PPc.holds, QPc.holds, QPc.woken, QPc.past_output, QPc.past_tmp, QPc.past_free]; done))
    | (rw [a5]; split_ifs <;> omega) | (rw [a7]; split_ifs <;> omega)
    | (simp_all; done)
    | (simp_all; omega)

theorem inv_main {cfg : Cfg} {input : List Nat} {s s' : State}
    (h : Inv cfg input s) (hs : meth_main_step cfg s = some s') : Inv cfg input s' := by
  cases hpc : s.pc
  · exact inv_main_loop_test h hpc hs
  · exact inv_main_init_db h hpc hs
  · exact inv_main_load_db h hpc hs
  · exact inv_main_join_p h hpc hs
  · exact inv_main_malloc_arg h hpc hs
  · exact inv_main_create_p h hpc hs
  · exact inv_main_join_pp h hpc hs
  · exact inv_main_create_pp h hpc hs
  · exact inv_main_brk_test h hpc hs
  · exact inv_main_final_join_p h hpc hs
  · exact inv_main_final_join_pp h hpc hs
  · exact inv_main_free_core h hpc hs
  · unfold meth_main_step at hs; simp only [hpc] at hs; cases hs

theorem inv_step {cfg : Cfg} {input : List Nat} {s s' : State} {t : Tid}
    (h : Inv cfg input s) (hs : step cfg t s = some s') : Inv cfg input s' := by
  cases t with
  | main => exact inv_main h hs
  | proc k => exact inv_proc h hs
  | post k => exact inv_post h hs

theorem inv_run {cfg : Cfg} {input : List Nat} (sched : List Tid) :
    ∀ {s : State}, Inv cfg input s → Inv cfg input (run cfg sched s) := by
  induction sched with
  | nil => intro s h; exact h
  | cons t rest ih =>
    intro s h
    show Inv cfg input (run cfg rest ((step cfg t s).getD s))
    apply ih
    cases hs : step cfg t s with
    | none => exact h
    | some s' => exact inv_step h hs

theorem inv_exec (cfg : Cfg) (input : List Nat) (sched : List Tid) :
    Inv cfg input (exec cfg input sched) :=
  inv_run sched (inv_init cfg input)

/-! ## The serial loop and the spec-modelled `load_db` -/

theorem first_stop_unique (P : Nat → Prop) {a b : Nat} (ha : ∀ k, k < a → ¬ P k) (pa : P a)
    (hb : ∀ k, k < b → ¬ P k) (pb : P b) : a = b := by
  rcases Nat.lt_trichotomy a b with h | h | h
  · exact absurd pa (hb a h)
  · exact h
  · exact absurd pb (ha b h)

theorem serial_body_spec (cfg : Cfg) (input : List Nat) (j : Nat) (s : SerialState)
    (hc : s.cursor = cursorAt cfg input j) :
    (serial_body cfg s).cursor = cursorAt cfg input (j + 1) ∧
    (serial_body cfg s).status = (batchAt cfg input j).length ∧
    (serial_body cfg s).loads = s.loads ++ [(batchAt cfg input j).length] ∧
    (serial_body cfg s).outputs = s.outputs ++ [(batchAt cfg input j, true)] ∧
    (serial_body cfg s).db_allocs = s.db_allocs ∧
    (serial_body cfg s).db_frees = s.db_frees ∧
    (serial_body cfg s).tmp_frees = s.tmp_frees + 1 := by
  simp only [serial_body, batchAt, cursorAt, hc, and_self]

/-- The serial loop, entered at iteration `j`, runs up to the first iteration
`j + d` at which the loop is left. -/
theorem serial_loop_spec (cfg : Cfg) (input : List Nat) :
    ∀ (d j : Nat) (s : SerialState) (fuel : Nat), d + 1 < fuel →
      s.cursor = cursorAt cfg input j → cfg.batch_size ≤ s.status →
      (∀ k, j ≤ k → k < j + d → ¬ stopAt cfg input k) → stopAt cfg input (j + d) →
      ∃ r, serial_loop cfg fuel s = some r ∧
        r.loads = s.loads ++ (List.range' j (d + 1)).map (fun k => (batchAt cfg input k).length) ∧
        r.outputs = s.outputs ++ (List.range' j (d + 1)).map (fun k => (batchAt cfg input k, true)) ∧
        r.db_allocs = s.db_allocs ∧ r.db_frees = s.db_frees ∧
        r.tmp_frees = s.tmp_frees + (d + 1) := by
  intro d
  induction d with
  | zero =>
    intro j s fuel hf hc hs _ hstop
    obtain ⟨f, rfl⟩ : ∃ f, fuel = f + 2 := ⟨fuel - 2, by omega⟩
    obtain ⟨b1, b2, b3, b4, b5, b6, b7⟩ := serial_body_spec cfg input j s hc
    have hres : serial_loop cfg (f + 2) s = some (serial_body cfg s) := by
      rw [serial_loop, if_pos hs]
      by_cases hb : cfg.debug_brk = true
      · rw [if_pos hb]
      · rw [if_neg hb, serial_loop, if_neg]
        rcases hstop with h1 | h1
        · exact absurd h1 hb
        · rw [b2]; simpa using h1
    exact ⟨_, hres, by simpa [List.range'] using b3, by simpa [List.range'] using b4, b5, b6, b7⟩
  | succ d ih =>
    intro j s fuel hf hc hs hcont hstop
    obtain ⟨f, rfl⟩ : ∃ f, fuel = f + 1 := ⟨fuel - 1, by omega⟩
    obtain ⟨b1, b2, b3, b4, b5, b6, b7⟩ := serial_body_spec cfg input j s hc
    have hj := hcont j (Nat.le_refl j) (by omega)
    have hb : ¬ cfg.debug_brk = true := fun hb => hj (Or.inl hb)
    have hl : cfg.batch_size ≤ (batchAt cfg input j).length := by
      by_contra hl; exact hj (Or.inr (by omega))
    obtain ⟨r, hr, h1, h2, h3, h4, h5⟩ := ih (j + 1) (serial_body cfg s) f (by omega) b1
      (by rw [b2]; exact hl) (fun k hk1 hk2 => hcont k (by omega) (by omega))
      (by rw [show j + 1 + d = j + (d + 1) by omega]; exact hstop)
    refine ⟨r, ?_, ?_, ?_, ?_, ?_, ?_⟩
    · rw [serial_loop, if_pos hs, if_neg hb]; exact hr
    · rw [h1, b3, List.range'_succ j (d + 1)]; simp
    · rw [h2, b4, List.range'_succ j (d + 1)]; simp
    · rw [h3, b5]
    · rw [h4, b6]
    · rw [h5, b7]; omega

/-- Serial mode returns, having handled the batches up to the first stopping
iteration `m`. -/
theorem meth_main_serial_spec (cfg : Cfg) (input : List Nat) (m fuel : Nat) (hf : m + 1 < fuel)
    (hcont : ∀ k, k < m → ¬ stopAt cfg input k) (hstop : stopAt cfg input m) :
    ∃ r, meth_main_serial cfg fuel input = some (0, r) ∧
      r.loads = (List.range (m + 1)).map (fun k => (batchAt cfg input k).length) ∧
      r.outputs = (List.range (m + 1)).map (fun k => (batchAt cfg input k, true)) ∧
      r.db_allocs = 1 ∧ r.db_frees = 1 ∧ r.tmp_frees = m + 1 := by
  obtain ⟨r, hr, h1, h2, h3, h4, h5⟩ := serial_loop_spec cfg input m 0
    { status := cfg.batch_size, cursor := input, recs := [], processed := false, loads := [],
      outputs := [], db_allocs := 1, tmp_frees := 0, db_frees := 0 } fuel hf rfl (Nat.le_refl _)
    (fun k _ hk => hcont k (by omega)) (by rw [Nat.zero_add]; exact hstop)
  refine ⟨{ r with db_frees := r.db_frees + 1 }, ?_, ?_, ?_, ?_, ?_, ?_⟩
  · simp only [meth_main_serial, hr]
  · simpa [List.range_eq_range'] using h1
  · simpa [List.range_eq_range'] using h2
  · exact h3
  · simp only [h4]
  · simpa using h5

theorem cursorAt_std (C : Nat) (brk : Bool) (w : Nat → Bool) (input : List Nat) (k : Nat) :
    cursorAt (wakeCfg C brk w) input k = input.drop (k * C) := by
  induction k with
  | zero => simp [cursorAt]
  | succ k ih =>
    show ((wakeCfg C brk w).load (cursorAt (wakeCfg C brk w) input k)).2 = _
    rw [ih]
    show List.drop C (List.drop (k * C) input) = _
    rw [List.drop_drop, Nat.succ_mul]

theorem batchAt_std (C : Nat) (brk : Bool) (w : Nat → Bool) (input : List Nat) (k : Nat) :
    batchAt (wakeCfg C brk w) input k = (input.drop (k * C)).take C := by
  rw [batchAt, cursorAt_std]; rfl

theorem batchAt_std_length (C : Nat) (brk : Bool) (w : Nat → Bool) (input : List Nat) (k : Nat) :
    (batchAt (wakeCfg C brk w) input k).length = min C (input.length - k * C) := by
  rw [batchAt_std, List.length_take, List.length_drop]

theorem std_cont (C : Nat) (brk : Bool) (w : Nat → Bool) (input : List Nat) (hC : 1 ≤ C) :
    ∀ k, k < last_iter C brk input.length → ¬ stopAt (wakeCfg C brk w) input k := by
  intro k hk hstop
  cases brk with
  | true => simp [last_iter] at hk
  | false =>
    simp only [last_iter, Bool.false_eq_true, if_false] at hk
    have h1 : (k + 1) * C ≤ input.length := (Nat.le_div_iff_mul_le hC).1 hk
    rcases hstop with hb | hl
    · simp [wakeCfg] at hb
    · rw [batchAt_std_length] at hl
      simp only [wakeCfg] at hl
      rw [Nat.succ_mul] at h1
      omega

theorem std_stop (C : Nat) (brk : Bool) (w : Nat → Bool) (input : List Nat) (hC : 1 ≤ C) :
    stopAt (wakeCfg C brk w) input (last_iter C brk input.length) := by
  cases brk with
  | true => left; rfl
  | false =>
    right
    rw [batchAt_std_length]
    simp only [wakeCfg, last_iter, Bool.false_eq_true, if_false]
    have h1 : input.length < C * (input.length / C + 1) := Nat.lt_mul_div_succ _ hC
    rw [Nat.mul_add, Nat.mul_one, Nat.mul_comm] at h1
    omega

theorem flatten_batches (C : Nat) (brk : Bool) (w : Nat → Bool) (input : List Nat) (m : Nat) :
    ((List.range m).map (fun k => batchAt (wakeCfg C brk w) input k)).flatten = input.take (m * C) := by
  induction m with
  | zero => simp
  | succ m ih =>
    rw [List.range_succ, List.map_append, List.flatten_append, ih, Nat.succ_mul, List.take_add]
    simp [batchAt_std]

/-- A list of tagged items whose tags are all `true` is determined by its
items. -/
theorem tagged_eq {α : Type} (l : List (α × Bool)) (h : ∀ x ∈ l, x.2 = true) :
    l = (l.map Prod.fst).map (fun a => (a, true)) := by
  induction l with
  | nil => rfl
  | cons x rest ih =>
    obtain ⟨a, b⟩ := x
    have hb : b = true := h (a, b) (List.mem_cons_self _ _)
    subst hb
    rw [List.map_cons, List.map_cons, ← ih (fun y hy => h y (List.mem_cons_of_mem _ hy))]

/-- With a library that ends no wait without a signal, every batch handed to
`output_db` so far had been processed. -/
theorem outputs_tagged {cfg : Cfg} {input : List Nat} {s : State} (h : Inv cfg input s)
    (hw : ∀ k, cfg.spurious k = false) :
    s.outputs = (List.range (nout s)).map (fun k => (batchAt cfg input k, true)) := by
  rw [tagged_eq s.outputs (h.out.2 hw), h.out.1, List.map_map]
  rfl

/-- What the invariant says once the controller has left `pthread_join` for
the last time. -/
theorem returned_spec {cfg : Cfg} {input : List Nat} {s : State} (h : Inv cfg input s)
    (hpc : s.pc = .free_core ∨ s.pc = .returned) :
    1 ≤ s.n ∧ (∀ k, k < s.n - 1 → ¬ stopAt cfg input k) ∧ stopAt cfg input (s.n - 1) ∧
      s.loads = (List.range s.n).map (fun k => (batchAt cfg input k).length) ∧
      (s.outputs.map Prod.fst = (List.range s.n).map (batchAt cfg input) ∧
        ((∀ k, cfg.spurious k = false) →
          s.outputs = (List.range s.n).map (fun k => (batchAt cfg input k, true)))) ∧
      (∀ k, k < s.n → (s.slots k).p = .exited ∧ (s.slots k).q = .exited ∧
        (s.slots k).p_joined = true ∧ (s.slots k).q_joined = true) := by
  have hn : 1 ≤ s.n := by
    rcases Nat.eq_zero_or_pos s.n with h0 | h0
    · rcases hpc with e | e <;> rcases h.n0 h0 with h1 | h1 <;> rw [e] at h1 <;> cases h1
    · exact h0
  have hq : (s.slots s.n).q = .unspawned := by
    by_contra hc
    have := (h.q_sp s.n).1 hc
    rcases hpc with e | e <;> simp only [nq, e] at this <;> omega
  have hjq : jq s = s.n := by rcases hpc with e | e <;> simp only [jq, e]
  have hjp : jp s = s.n := by rcases hpc with e | e <;> simp only [jp, e]
  have hns : ns s = s.n - 1 := by rcases hpc with e | e <;> simp only [ns, e]
  have hnl : nl s = s.n := by rcases hpc with e | e <;> simp only [nl, e]
  refine ⟨hn, ?_, ?_, ?_, ?_, ?_⟩
  · intro k hk; exact h.cont k (by rw [hns]; exact hk)
  · exact h.stop (by rcases hpc with e | e <;> rw [e] <;> rfl)
  · rw [h.lds, hnl]
  · have e : s.outputs.map Prod.fst = (List.range s.n).map (batchAt cfg input) := by
      rw [h.out.1, nout, hjq, hq]; simp [QPc.past_output]
    refine ⟨e, fun hw => ?_⟩
    rw [tagged_eq s.outputs (h.out.2 hw), e, List.map_map]
    rfl
  · intro k hk
    have a := (h.p_jn k).2 (by rw [hjp]; exact hk)
    have b := (h.q_jn k).2 (by rw [hjq]; exact hk)
    exact ⟨(h.ok k).pj a, (h.ok k).qj b, a, b⟩

theorem returned_count {C : Nat} {brk : Bool} {w : Nat → Bool} {input : List Nat} {s : State}
    (hC : 1 ≤ C)
    (h : Inv (wakeCfg C brk w) input s) (hpc : s.pc = .free_core ∨ s.pc = .returned) :
    s.n = last_iter C brk input.length + 1 := by
  obtain ⟨h1, h2, h3, _⟩ := returned_spec h hpc
  have := first_stop_unique (stopAt (wakeCfg C brk w) input) h2 h3 (std_cont C brk w input hC)
    (std_stop C brk w input hC)
  omega

/-! ## Tasks per stage and stage order (C4, C6) -/

theorem np_le_nl (s : State) : np s ≤ nl s := by
  unfold np nl; cases s.pc <;> simp only <;> omega

theorem nq_le_na (s : State) : nq s ≤ na s := by
  unfold nq na; cases s.pc <;> simp only <;> omega

theorem nq_le_n (s : State) : nq s ≤ s.n := by
  unfold nq; cases s.pc <;> simp only <;> omega

theorem jq_le_n (s : State) : jq s ≤ s.n := by
  unfold jq; cases s.pc <;> simp only <;> omega

theorem n_le_jq (s : State) : s.n ≤ jq s + 2 := by
  unfold jq; cases s.pc <;> simp only <;> omega

theorem n_le_ns (s : State) : s.n ≤ ns s + 1 := by
  unfold ns; cases s.pc <;> simp only <;> omega

theorem QPc.woken_of_reached (q : QPc) (h : q.reached_output = true) : q.woken = true := by
  cases q <;> simp_all [QPc.reached_output, QPc.woken]

theorem QPc.woken_of_past_output (q : QPc) (h : q.past_output = true) : q.woken = true := by
  cases q <;> simp_all [QPc.past_output, QPc.woken]

theorem QPc.past_output_of_past_tmp (q : QPc) (h : q.past_tmp = true) :
    q.past_output = true := by
  cases q <;> simp_all [QPc.past_output, QPc.past_tmp]

theorem QPc.past_tmp_of_past_free (q : QPc) (h : q.past_free = true) : q.past_tmp = true := by
  cases q <;> simp_all [QPc.past_free, QPc.past_tmp]

theorem unjoined_p_eq {cfg : Cfg} {input : List Nat} {s : State} (h : Inv cfg input s)
    {k : Nat} (hk : unjoined_p s k) : k = jp s ∧ jp s < np s := by
  have h1 := (h.p_sp k).1 hk.1
  have h2 : ¬ k < jp s := fun hlt => by
    have := (h.p_jn k).2 hlt
    rw [hk.2] at this; cases this
  have h3 := np_le_jp s
  omega

theorem unjoined_pp_eq {cfg : Cfg} {input : List Nat} {s : State} (h : Inv cfg input s)
    {k : Nat} (hk : unjoined_pp s k) : k = jq s ∧ jq s < nq s := by
  have h1 := (h.q_sp k).1 hk.1
  have h2 : ¬ k < jq s := fun hlt => by
    have := (h.q_jn k).2 hlt
    rw [hk.2] at this; cases this
  have h3 := nq_le_jq s
  omega

/-- C4: in every reachable state of the interleaved controller, whatever the
capacity and the load results, at most one `pthread_processor` task and at
most one `pthread_post_processor` task is spawned and not yet joined; when the
controller is about to call `pthread_create` for a stage, every task it
spawned earlier for that stage has been joined. -/
theorem C4_one_unjoined_task_per_stage (cfg : Cfg) (input : List Nat) (sched : List Tid) :
    (∀ j k, unjoined_p (exec cfg input sched) j → unjoined_p (exec cfg input sched) k → j = k) ∧
    (∀ j k, unjoined_pp (exec cfg input sched) j → unjoined_pp (exec cfg input sched) k →
      j = k) ∧
    ((exec cfg input sched).pc = .create_p → ∀ k, ¬ unjoined_p (exec cfg input sched) k) ∧
    ((exec cfg input sched).pc = .create_pp → ∀ k, ¬ unjoined_pp (exec cfg input sched) k) := by
  have h := inv_exec cfg input sched
  refine ⟨?_, ?_, ?_, ?_⟩
  · intro j k hj hk
    rw [(unjoined_p_eq h hj).1, (unjoined_p_eq h hk).1]
  · intro j k hj hk
    rw [(unjoined_pp_eq h hj).1, (unjoined_pp_eq h hk).1]
  · intro hpc k hk
    have := (unjoined_p_eq h hk).2
    simp only [np, jp, hpc] at this
    omega
  · intro hpc k hk
    have := (unjoined_pp_eq h hk).2
    simp only [nq, jq, hpc] at this
    omega

/-- Order of the stages on one batch, in every reachable state: the batch was
loaded before its processor existed and before it was processed, it was output
(once) before `free_db_tmp`, and that before `free_db` and `free(args)`.  If
the library ends the wait of the batch only on a signal, a post-processor that
has reached `output_db` finds the paired processor past `process_db` and past
its one `pthread_cond_signal`, and the batch was processed before it was
output. -/
theorem stage_order (cfg : Cfg) (input : List Nat) (sched : List Tid) (k : Nat) :
    (cfg.spurious k = false → ((exec cfg input sched).slots k).q.reached_output = true →
      ((exec cfg input sched).slots k).p.signalled = true ∧
      ((exec cfg input sched).slots k).processed = true ∧
      ((exec cfg input sched).slots k).signals = 1) ∧
    (((exec cfg input sched).slots k).p ≠ .unspawned →
      ((exec cfg input sched).slots k).loaded = true) ∧
    (((exec cfg input sched).slots k).q ≠ .unspawned →
      ((exec cfg input sched).slots k).loaded = true) ∧
    (((exec cfg input sched).slots k).processed = true →
      ((exec cfg input sched).slots k).loaded = true) ∧
    (cfg.spurious k = false → 0 < ((exec cfg input sched).slots k).outs →
      ((exec cfg input sched).slots k).processed = true) ∧
    (0 < ((exec cfg input sched).slots k).outs →
      ((exec cfg input sched).slots k).loaded = true ∧
      ((exec cfg input sched).slots k).outs = 1) ∧
    (0 < ((exec cfg input sched).slots k).tmp_frees →
      ((exec cfg input sched).slots k).outs = 1) ∧
    (0 < ((exec cfg input sched).slots k).db_frees →
      ((exec cfg input sched).slots k).tmp_frees = 1) ∧
    (0 < ((exec cfg input sched).slots k).arg_frees →
      ((exec cfg input sched).slots k).db_frees = 1) ∧
    ((∀ j, cfg.spurious j = false) → ∀ e ∈ (exec cfg input sched).outputs, e.2 = true) := by
  have h := inv_exec cfg input sched
  generalize exec cfg input sched = s at h ⊢
  obtain ⟨b1, b2, b3, b4, b5, b6, b7, b8, b9, b10, b11⟩ := h.ok k
  have hld : (s.slots k).p ≠ .unspawned → (s.slots k).loaded = true := fun hp =>
    (h.ld k).2 (Nat.lt_of_lt_of_le ((h.p_sp k).1 hp) (np_le_nl s))
  have hlq : (s.slots k).q ≠ .unspawned → (s.slots k).loaded = true := fun hq =>
    (h.ld k).2 (Nat.lt_of_lt_of_le ((h.q_sp k).1 hq) (nq_le_nl s))
  have hsd := PPc.done_of_signalled (s.slots k).p
  refine ⟨?_, hld, hlq, ?_, ?_, ?_, ?_, ?_, ?_, h.out.2⟩
  · intro hw hq
    have hs := b3 hw (QPc.woken_of_reached _ hq)
    refine ⟨hs, ?_, ?_⟩
    · rw [b1]; exact hsd hs
    · rw [b2, if_pos hs]
  · intro hp
    apply hld
    intro hu
    rw [b1, hu] at hp
    cases hp
  · intro hw ho
    have hpo : (s.slots k).q.past_output = true := by
      by_contra hc; rw [b6, if_neg hc] at ho; omega
    rw [b1]; exact hsd (b3 hw (QPc.woken_of_past_output _ hpo))
  · intro ho
    have hpo : (s.slots k).q.past_output = true := by
      by_contra hc; rw [b6, if_neg hc] at ho; omega
    refine ⟨hlq ?_, by rw [b6, if_pos hpo]⟩
    intro hu
    rw [hu] at hpo
    cases hpo
  · intro ho
    have hpt : (s.slots k).q.past_tmp = true := by
      by_contra hc; rw [b7, if_neg hc] at ho; omega
    rw [b6, if_pos (QPc.past_output_of_past_tmp _ hpt)]
  · intro ho
    have hpf : (s.slots k).q.past_free = true := by
      by_contra hc; rw [b8, if_neg hc] at ho; omega
    rw [b7, if_pos (QPc.past_tmp_of_past_free _ hpf)]
  · intro ho
    have hx : (s.slots k).q = .exited := by
      by_contra hc; rw [b9, if_neg hc] at ho; omega
    rw [b8, if_pos (by rw [hx]; rfl)]

set_option maxRecDepth 100000 in
/-- C6 at a failing schedule: with capacity 4, the records 7 and 8 and a wait
that returns without a signal, let the controller run up to and including
`pthread_create` of the post-processor and then let the post-processor run.
After five of its statements it stands at `output_db` while the processor has
not yet started `process_db` and no signal was sent; its next statement hands
the unprocessed batch to `output_db`; two statements later the batch has been
released by `free_db` although `process_db` has still not run on it; and the
processor then runs `process_db` on the released batch. -/
theorem C6_output_before_process :
    (((exec (wakeCfg 4 false (fun _ => true)) [7, 8]
        (List.replicate 8 .main ++ List.replicate 5 (.post 0))).slots 0).q = .output_db ∧
      ((exec (wakeCfg 4 false (fun _ => true)) [7, 8]
        (List.replicate 8 .main ++ List.replicate 5 (.post 0))).slots 0).p = .process_db ∧
      ((exec (wakeCfg 4 false (fun _ => true)) [7, 8]
        (List.replicate 8 .main ++ List.replicate 5 (.post 0))).slots 0).processed = false ∧
      ((exec (wakeCfg 4 false (fun _ => true)) [7, 8]
        (List.replicate 8 .main ++ List.replicate 5 (.post 0))).slots 0).signals = 0) ∧
    ((exec (wakeCfg 4 false (fun _ => true)) [7, 8]
        (List.replicate 8 .main ++ List.replicate 6 (.post 0))).outputs = [([7, 8], false)] ∧
      ((exec (wakeCfg 4 false (fun _ => true)) [7, 8]
        (List.replicate 8 .main ++ List.replicate 6 (.post 0))).slots 0).outs = 1 ∧
      ((exec (wakeCfg 4 false (fun _ => true)) [7, 8]
        (List.replicate 8 .main ++ List.replicate 6 (.post 0))).slots 0).p = .process_db) ∧
    (((exec (wakeCfg 4 false (fun _ => true)) [7, 8]
        (List.replicate 8 .main ++ List.replicate 8 (.post 0))).slots 0).db_frees = 1 ∧
      ((exec (wakeCfg 4 false (fun _ => true)) [7, 8]
        (List.replicate 8 .main ++ List.replicate 8 (.post 0))).slots 0).processed = false ∧
      ((exec (wakeCfg 4 false (fun _ => true)) [7, 8]
        (List.replicate 8 .main ++ List.replicate 8 (.post 0))).slots 0).p = .process_db) ∧
    (((exec (wakeCfg 4 false (fun _ => true)) [7, 8]
        (List.replicate 8 .main ++ List.replicate 8 (.post 0) ++ [.proc 0])).slots 0).db_frees
          = 1 ∧
      ((exec (wakeCfg 4 false (fun _ => true)) [7, 8]
        (List.replicate 8 .main ++ List.replicate 8 (.post 0) ++ [.proc 0])).slots 0).processed
          = true) := by
  refine ⟨⟨?_, ?_, ?_, ?_⟩, ⟨?_, ?_, ?_⟩, ⟨?_, ?_, ?_⟩, ⟨?_, ?_⟩⟩ <;> decide

/-! ## The lost wake-up (C5, C2, C8) -/

theorem run_append (cfg : Cfg) (a b : List Tid) (s : State) :
    run cfg (a ++ b) s = run cfg b (run cfg a s) := by
  simp [run, List.foldl_append]

theorem run_stuck {cfg : Cfg} {s : State} (h : stuck cfg s) (sched : List Tid) :
    run cfg sched s = s := by
  induction sched with
  | nil => rfl
  | cons t rest ih =>
    show run cfg rest ((step cfg t s).getD s) = s
    rw [h t]; exact ih

theorem step_proc_none {cfg : Cfg} {s : State} {k : Nat}
    (h : (s.slots k).p = .unspawned ∨ (s.slots k).p = .exited) :
    step cfg (.proc k) s = none := by
  show step_proc k s = none
  unfold step_proc pthread_processor
  rcases h with h | h <;> simp [h]

theorem step_post_none {cfg : Cfg} {s : State} {k : Nat} (hw : cfg.spurious k = false)
    (h : (s.slots k).q = .unspawned ∨ (s.slots k).q = .blocked ∨ (s.slots k).q = .exited) :
    step cfg (.post k) s = none := by
  show step_post cfg k s = none
  unfold step_post pthread_post_processor
  rcases h with h | h | h <;> simp [h, hw]

/-- A state in which the controller waits in a join for a post-processor that
is blocked in `pthread_cond_wait`, while no other task can move and the
library ends no wait without a signal. -/
theorem stuck_of {cfg : Cfg} {input : List Nat} {s : State} (h : Inv cfg input s)
    (hw : ∀ k, cfg.spurious k = false) (hmain : meth_main_step cfg s = none)
    (hp : ∀ k, k < np s → (s.slots k).p = .exited)
    (hq : ∀ k, k < nq s → (s.slots k).q = .blocked ∨ (s.slots k).q = .exited) :
    stuck cfg s := by
  intro t
  cases t with
  | main => exact hmain
  | proc k =>
    apply step_proc_none
    by_cases hk : k < np s
    · exact Or.inr (hp k hk)
    · left; by_contra hc; exact hk ((h.p_sp k).1 hc)
  | post k =>
    apply step_post_none (hw k)
    by_cases hk : k < nq s
    · exact Or.inr (hq k hk)
    · left; by_contra hc; exact hk ((h.q_sp k).1 hc)

set_option maxRecDepth 100000 in
/-- C5: with capacity 4 and two records, let the processor of batch 0 run to
its end before the post-processor is created (`lost_wakeup_start`), then let
the controller run on.  The processor has sent its one signal and exited, the
post-processor is blocked in `pthread_cond_wait`, `output_db` was never
called, the controller is in its final join of the post-processor, and no
unit can ever move again: the library of `stdCfg` ends a wait only on a
signal, which is all that POSIX promises. -/
theorem C5_signal_before_wait_deadlocks :
    ((exec (stdCfg 4 false) [7, 8] (lost_wakeup_start ++ List.replicate 3 .main)).slots 0).p
      = .exited ∧
    ((exec (stdCfg 4 false) [7, 8] (lost_wakeup_start ++ List.replicate 3 .main)).slots
      0).signals = 1 ∧
    ((exec (stdCfg 4 false) [7, 8] (lost_wakeup_start ++ List.replicate 3 .main)).slots 0).q
      = .blocked ∧
    ((exec (stdCfg 4 false) [7, 8] (lost_wakeup_start ++ List.replicate 3 .main)).slots
      0).outs = 0 ∧
    (exec (stdCfg 4 false) [7, 8] (lost_wakeup_start ++ List.replicate 3 .main)).pc
      = .final_join_pp ∧
    stuck (stdCfg 4 false)
      (exec (stdCfg 4 false) [7, 8] (lost_wakeup_start ++ List.replicate 3 .main)) ∧
    ∀ sched, (run (stdCfg 4 false) sched
        (exec (stdCfg 4 false) [7, 8] (lost_wakeup_start ++ List.replicate 3 .main))).pc
          ≠ .returned ∧
      (run (stdCfg 4 false) sched
        (exec (stdCfg 4 false) [7, 8] (lost_wakeup_start ++ List.replicate 3 .main))).outputs
          = [] := by
  have h := inv_exec (stdCfg 4 false) [7, 8] (lost_wakeup_start ++ List.replicate 3 .main)
  have hst : stuck (stdCfg 4 false)
      (exec (stdCfg 4 false) [7, 8] (lost_wakeup_start ++ List.replicate 3 .main)) := by
    apply stuck_of h (fun _ => rfl)
    · rfl
    · intro k hk
      have : k < 1 := hk
      have : k = 0 := by omega
      subst this; decide
    · intro k hk
      have : k < 1 := hk
      have : k = 0 := by omega
      subst this; left; decide
  refine ⟨by decide, by decide, by decide, by decide, by decide, hst, ?_⟩
  intro sched
  rw [run_stuck hst]
  exact ⟨by decide, by decide⟩

set_option maxRecDepth 100000 in
/-- C2 at a failing schedule: with capacity 4 and ten records, after
`lost_wakeup_start` the controller loads the second batch, joins the first
processor, spawns the second one and then waits for ever in `pthread_join` of
the first post-processor: only the sizes `[4, 4]` are ever loaded and
`output_db` is never called (the library of `stdCfg` ends a wait only on a
signal). -/
theorem C2_lost_wakeup_stops_after_two_loads :
    (exec (stdCfg 4 false) (List.range 10)
      (lost_wakeup_start ++ List.replicate 7 .main ++ List.replicate 4 (.proc 1))).pc
        = .join_pp ∧
    stuck (stdCfg 4 false) (exec (stdCfg 4 false) (List.range 10)
      (lost_wakeup_start ++ List.replicate 7 .main ++ List.replicate 4 (.proc 1))) ∧
    ∀ sched,
      (run (stdCfg 4 false) sched (exec (stdCfg 4 false) (List.range 10)
        (lost_wakeup_start ++ List.replicate 7 .main ++ List.replicate 4 (.proc 1)))).loads
          = [4, 4] ∧
      (run (stdCfg 4 false) sched (exec (stdCfg 4 false) (List.range 10)
        (lost_wakeup_start ++ List.replicate 7 .main ++ List.replicate 4 (.proc 1)))).n
          = 2 ∧
      (run (stdCfg 4 false) sched (exec (stdCfg 4 false) (List.range 10)
        (lost_wakeup_start ++ List.replicate 7 .main ++ List.replicate 4 (.proc 1)))).outputs
          = [] := by
  have h := inv_exec (stdCfg 4 false) (List.range 10)
    (lost_wakeup_start ++ List.replicate 7 .main ++ List.replicate 4 (.proc 1))
  have hst : stuck (stdCfg 4 false) (exec (stdCfg 4 false) (List.range 10)
      (lost_wakeup_start ++ List.replicate 7 .main ++ List.replicate 4 (.proc 1))) := by
    apply stuck_of h (fun _ => rfl)
    · rfl
    · intro k hk
      have : k < 2 := hk
      have : k = 0 ∨ k = 1 := by omega
      rcases this with rfl | rfl <;> decide
    · intro k hk
      have : k < 1 := hk
      have : k = 0 := by omega
      subst this; left; decide
  refine ⟨by decide, hst, ?_⟩
  intro sched
  rw [run_stuck hst]
  exact ⟨by decide, by decide, by decide⟩

set_option maxRecDepth 100000 in
/-- C8 at a failing schedule: with the debug-break flag, capacity 4 and ten
records, after `lost_wakeup_start` the controller breaks out of the loop,
joins the processor and then waits for ever in its final `pthread_join` of
the post-processor: one batch of size 4 was loaded and processed, but it is
never output and `meth_main` never returns (the library of `stdCfg` ends a
wait only on a signal). -/
theorem C8_lost_wakeup_with_debug_break :
    (exec (stdCfg 4 true) (List.range 10) (lost_wakeup_start ++ List.replicate 2 .main)).pc
      = .final_join_pp ∧
    ((exec (stdCfg 4 true) (List.range 10)
      (lost_wakeup_start ++ List.replicate 2 .main)).slots 0).processed = true ∧
    stuck (stdCfg 4 true)
      (exec (stdCfg 4 true) (List.range 10) (lost_wakeup_start ++ List.replicate 2 .main)) ∧
    ∀ sched,
      (run (stdCfg 4 true) sched (exec (stdCfg 4 true) (List.range 10)
        (lost_wakeup_start ++ List.replicate 2 .main))).loads = [4] ∧
      (run (stdCfg 4 true) sched (exec (stdCfg 4 true) (List.range 10)
        (lost_wakeup_start ++ List.replicate 2 .main))).outputs = [] ∧
      (run (stdCfg 4 true) sched (exec (stdCfg 4 true) (List.range 10)
        (lost_wakeup_start ++ List.replicate 2 .main))).pc ≠ .returned := by
  have h := inv_exec (stdCfg 4 true) (List.range 10)
    (lost_wakeup_start ++ List.replicate 2 .main)
  have hst : stuck (stdCfg 4 true) (exec (stdCfg 4 true) (List.range 10)
      (lost_wakeup_start ++ List.replicate 2 .main)) := by
    apply stuck_of h (fun _ => rfl)
    · rfl
    · intro k hk
      have : k < 1 := hk
      have : k = 0 := by omega
      subst this; decide
    · intro k hk
      have : k < 1 := hk
      have : k = 0 := by omega
      subst this; left; decide
  refine ⟨by decide, by decide, hst, ?_⟩
  intro sched
  rw [run_stuck hst]
  exact ⟨by decide, by decide, by decide⟩

/-! ## A schedule under which `meth_main` returns -/

theorem main_effect {cfg : Cfg} {s s' : State} (hs : meth_main_step cfg s = some s') :
    s'.pc = next_pc cfg s ∧
    s'.n = (if s.pc = .init_db then s.n + 1 else s.n) ∧
    s'.db = (if s.pc = .init_db then s.n else s.db) ∧
    (∀ k, (s'.slots k).p =
      if s.pc = .create_p ∧ k = s.db then .process_db else (s.slots k).p) ∧
    (∀ k, (s'.slots k).q = if s.pc = .create_pp ∧ k = s.db then .lock else (s.slots k).q) := by
  unfold meth_main_step at hs
  unfold next_pc
  cases hpc : s.pc <;> simp only [hpc] at hs ⊢
  case join_p | join_pp => (split at hs <;> try split at hs) <;> first
    | (cases hs; done)
    | (cases hs
       refine ⟨rfl, by simp, by simp, fun k => ?_, fun k => ?_⟩ <;>
         simp only [upd_apply] <;> split <;> simp_all)
  case final_join_p | final_join_pp => split at hs <;> first
    | (cases hs; done)
    | (cases hs
       refine ⟨rfl, by simp, by simp, fun k => ?_, fun k => ?_⟩ <;>
         simp only [upd_apply] <;> split <;> simp_all)
  case returned => cases hs
  all_goals
    cases hs
    refine ⟨rfl, by simp, by simp, fun k => ?_, fun k => ?_⟩ <;>
      first
        | (simp; done)
        | (simp only [upd_apply] <;> split <;> simp_all)

theorem main_enabled {cfg : Cfg} {s : State} (h0 : s.pc ≠ .returned)
    (h1 : s.pc = .join_p → s.first_flag_p = true → (s.slots s.tid_p).p = .exited)
    (h2 : s.pc = .join_pp → s.first_flag_pp = true → (s.slots s.tid_pp).q = .exited)
    (h3 : s.pc = .final_join_p → (s.slots s.tid_p).p = .exited)
    (h4 : s.pc = .final_join_pp → (s.slots s.tid_pp).q = .exited) :
    ∃ s', meth_main_step cfg s = some s' := by
  unfold meth_main_step
  cases hpc : s.pc <;> simp only [hpc] at h0 h1 h2 h3 h4 ⊢
  all_goals first
    | exact ⟨_, rfl⟩
    | (exfalso; exact h0 rfl)
    | skip
  · by_cases hf : s.first_flag_p = true
    · rw [if_pos hf, if_pos (h1 trivial hf)]; exact ⟨_, rfl⟩
    · rw [if_neg hf]; exact ⟨_, rfl⟩
  · by_cases hf : s.first_flag_pp = true
    · rw [if_pos hf, if_pos (h2 trivial hf)]; exact ⟨_, rfl⟩
    · rw [if_neg hf]; exact ⟨_, rfl⟩
  · rw [if_pos (h3 trivial)]; exact ⟨_, rfl⟩
  · rw [if_pos (h4 trivial)]; exact ⟨_, rfl⟩

/-- One enabled controller statement, with everything the schedule
construction tracks. -/
theorem main_adv {cfg : Cfg} {input : List Nat} {s : State} {e : Nat} (h : Inv cfg input s)
    (hE : all_exited s e) (h0 : s.pc ≠ .returned)
    (h1 : s.pc = .join_p ∨ s.pc = .join_pp → s.n ≤ e + 1)
    (h2 : s.pc = .final_join_p ∨ s.pc = .final_join_pp → s.n ≤ e)
    (h3 : s.pc = .create_p ∨ s.pc = .create_pp → e ≤ s.db) :
    ∃ s', (∀ rest, run cfg (.main :: rest) s = run cfg rest s') ∧ Inv cfg input s' ∧
      all_exited s' e ∧ s'.pc = next_pc cfg s ∧
      s'.n = (if s.pc = .init_db then s.n + 1 else s.n) ∧
      s'.db = (if s.pc = .init_db then s.n else s.db) ∧
      (∀ k, (s'.slots k).p =
        if s.pc = .create_p ∧ k = s.db then .process_db else (s.slots k).p) ∧
      (∀ k, (s'.slots k).q =
        if s.pc = .create_pp ∧ k = s.db then .lock else (s.slots k).q) := by
  obtain ⟨s', hs⟩ : ∃ s', meth_main_step cfg s = some s' := by
    apply main_enabled h0
    · intro hpc hf
      have hnp : 0 < np s := by
        rcases h.ffp.1 hf with a | a | a
        · exact a
        · rw [hpc] at a; cases a
        · rw [hpc] at a; cases a
      have ht := h.tidp hnp
      have hn := h1 (Or.inl hpc)
      simp only [np, hpc] at ht
      exact (hE s.tid_p (by omega)).1
    · intro hpc hf
      have hnq : 0 < nq s := by
        rcases h.ffq.1 hf with a | a
        · exact a
        · rw [hpc] at a; cases a
      have ht := h.tidq hnq
      have hn := h1 (Or.inr hpc)
      simp only [nq, hpc] at ht
      exact (hE s.tid_pp (by omega)).2
    · intro hpc
      have hn := h2 (Or.inl hpc)
      have hn0 : 0 < s.n := by
        rcases Nat.eq_zero_or_pos s.n with z | z
        · rcases h.n0 z with a | a <;> rw [hpc] at a <;> cases a
        · exact z
      have ht := h.tidp (by simp only [np, hpc]; exact hn0)
      simp only [np, hpc] at ht
      exact (hE s.tid_p (by omega)).1
    · intro hpc
      have hn := h2 (Or.inr hpc)
      have hn0 : 0 < s.n := by
        rcases Nat.eq_zero_or_pos s.n with z | z
        · rcases h.n0 z with a | a <;> rw [hpc] at a <;> cases a
        · exact z
      have ht := h.tidq (by simp only [nq, hpc]; exact hn0)
      simp only [nq, hpc] at ht
      exact (hE s.tid_pp (by omega)).2
  obtain ⟨e1, e2, e3, e4, e5⟩ := main_effect hs
  refine ⟨s', ?_, inv_main h hs, ?_, e1, e2, e3, e4, e5⟩
  · intro rest
    show run cfg rest ((meth_main_step cfg s).getD s) = _
    rw [hs]; rfl
  · intro k hk
    obtain ⟨a, b⟩ := hE k hk
    rw [e4 k, e5 k]
    constructor
    · rw [if_neg, a]
      rintro ⟨c, d⟩
      have := h3 (Or.inl c)
      omega
    · rw [if_neg, b]
      rintro ⟨c, d⟩
      have := h3 (Or.inr c)
      omega

theorem run_threads (cfg : Cfg) (k : Nat) :
    ∀ (l : List Bool) (s : State) (sl : Slot),
      slot_run (cfg.spurious k) l (s.slots k) = some sl →
      (run cfg (l.map (fun b => if b then Tid.proc k else Tid.post k)) s).pc = s.pc ∧
      (run cfg (l.map (fun b => if b then Tid.proc k else Tid.post k)) s).n = s.n ∧
      (run cfg (l.map (fun b => if b then Tid.proc k else Tid.post k)) s).slots k = sl ∧
      ∀ j, j ≠ k →
        (run cfg (l.map (fun b => if b then Tid.proc k else Tid.post k)) s).slots j
          = s.slots j := by
  intro l
  induction l with
  | nil =>
    intro s sl hsl
    simp only [slot_run, Option.some.injEq] at hsl
    exact ⟨rfl, rfl, hsl, fun _ _ => rfl⟩
  | cons b rest ih =>
    intro s sl hsl
    rw [slot_run] at hsl
    cases b with
    | true =>
      simp only [if_true] at hsl
      cases hps : pthread_processor (s.slots k) with
      | none => rw [hps] at hsl; cases hsl
      | some sl1 =>
        rw [hps] at hsl
        simp only at hsl
        have hstep : step cfg (Tid.proc k) s = some { s with slots := upd s.slots k sl1 } := by
          show step_proc k s = _
          unfold step_proc; rw [hps]
        obtain ⟨a1, a2, a3, a4⟩ := ih { s with slots := upd s.slots k sl1 } sl
          (by simpa using hsl)
        have hrun : run cfg ((true :: rest).map (fun b => if b then Tid.proc k else Tid.post k)) s
            = run cfg (rest.map (fun b => if b then Tid.proc k else Tid.post k))
                { s with slots := upd s.slots k sl1 } := by
          show run cfg _ ((step cfg (Tid.proc k) s).getD s) = _
          rw [hstep]; rfl
        rw [hrun]
        exact ⟨a1, a2, a3, fun j hj => by rw [a4 j hj]; exact upd_other _ _ _ _ hj⟩
    | false =>
      simp only [Bool.false_eq_true, if_false] at hsl
      cases hps : pthread_post_processor (cfg.spurious k) (s.slots k) with
      | none => rw [hps] at hsl; cases hsl
      | some sl1 =>
        rw [hps] at hsl
        simp only at hsl
        obtain ⟨o, hstep⟩ : ∃ o, step cfg (Tid.post k) s
            = some { s with outputs := o, slots := upd s.slots k sl1 } := by
          refine ⟨if (s.slots k).q = .output_db then
            s.outputs ++ [((s.slots k).recs, (s.slots k).processed)] else s.outputs, ?_⟩
          show step_post cfg k s = _
          unfold step_post; rw [hps]
        obtain ⟨a1, a2, a3, a4⟩ := ih { s with outputs := o, slots := upd s.slots k sl1 } sl
          (by simpa using hsl)
        have hrun : run cfg ((false :: rest).map (fun b => if b then Tid.proc k else Tid.post k)) s
            = run cfg (rest.map (fun b => if b then Tid.proc k else Tid.post k))
                { s with outputs := o, slots := upd s.slots k sl1 } := by
          show run cfg _ ((step cfg (Tid.post k) s).getD s) = _
          rw [hstep]; rfl
        rw [hrun]
        exact ⟨a1, a2, a3, fun j hj => by rw [a4 j hj]; exact upd_other _ _ _ _ hj⟩

theorem slot_run_thread_order (w : Bool) (sl : Slot) (hok : SlotOk w sl)
    (hp : sl.p = .process_db) (hq : sl.q = .lock) :
    ∃ sl', slot_run w thread_order sl = some sl' ∧ sl'.p = .exited ∧ sl'.q = .exited := by
  have hm := hok.mutex
  rw [hp, hq] at hm
  obtain ⟨a1, a2, a3, a4, a5, a6, a7, a8, a9, mu, sg, p, q, pj, qj⟩ := sl
  simp only at hp hq hm
  subst hp hq
  simp only [PPc.holds, QPc.holds, Bool.or_self] at hm
  subst hm
  exact ⟨_, rfl, rfl, rfl⟩

/-- One iteration under `good_iter`, started with every earlier task exited,
ends with every task exited and the controller past `brk_test`. -/
theorem good_iter_run {cfg : Cfg} {input : List Nat} {s : State} (I0 : Inv cfg input s)
    (pc0 : s.pc = .loop_test) (hst : cfg.batch_size ≤ s.status) (E0 : all_exited s s.n) :
    Inv cfg input (run cfg (good_iter s.n) s) ∧
    (run cfg (good_iter s.n) s).n = s.n + 1 ∧
    all_exited (run cfg (good_iter s.n) s) (s.n + 1) ∧
    (run cfg (good_iter s.n) s).pc = (if cfg.debug_brk then .final_join_p else .loop_test) := by
  obtain ⟨s1, r1, I1, E1, pc1, n1, db1, p1, q1⟩ := main_adv I0 E0
    (by rw [pc0]; simp)
    (by intro hh; first | omega | (rw [pc0] at hh; simp at hh))
    (by intro hh; first | omega | (rw [pc0] at hh; simp at hh))
    (by intro hh; first | omega | (rw [pc0] at hh; simp at hh))
  simp [next_pc, pc0, hst] at pc1 n1 db1 p1 q1
  obtain ⟨s2, r2, I2, E2, pc2, n2, db2, p2, q2⟩ := main_adv I1 E1
    (by rw [pc1]; simp)
    (by intro hh; first | omega | (rw [pc1] at hh; simp at hh))
    (by intro hh; first | omega | (rw [pc1] at hh; simp at hh))
    (by intro hh; first | omega | (rw [pc1] at hh; simp at hh))
  simp [next_pc, pc1] at pc2 n2 db2 p2 q2
  obtain ⟨s3, r3, I3, E3, pc3, n3, db3, p3, q3⟩ := main_adv I2 E2
    (by rw [pc2]; simp)
    (by intro hh; first | omega | (rw [pc2] at hh; simp at hh))
    (by intro hh; first | omega | (rw [pc2] at hh; simp at hh))
    (by intro hh; first | omega | (rw [pc2] at hh; simp at hh))
  simp [next_pc, pc2] at pc3 n3 db3 p3 q3
  obtain ⟨s4, r4, I4, E4, pc4, n4, db4, p4, q4⟩ := main_adv I3 E3
    (by rw [pc3]; simp)
    (by intro hh; first | omega | (rw [pc3] at hh; simp at hh))
    (by intro hh; first | omega | (rw [pc3] at hh; simp at hh))
    (by intro hh; first | omega | (rw [pc3] at hh; simp at hh))
  simp [next_pc, pc3] at pc4 n4 db4 p4 q4
  obtain ⟨s5, r5, I5, E5, pc5, n5, db5, p5, q5⟩ := main_adv I4 E4
    (by rw [pc4]; simp)
    (by intro hh; first | omega | (rw [pc4] at hh; simp at hh))
    (by intro hh; first | omega | (rw [pc4] at hh; simp at hh))
    (by intro hh; first | omega | (rw [pc4] at hh; simp at hh))
  simp [next_pc, pc4] at pc5 n5 db5 p5 q5
  obtain ⟨s6, r6, I6, E6, pc6, n6, db6, p6, q6⟩ := main_adv I5 E5
    (by rw [pc5]; simp)
    (by intro hh; first | omega | (rw [pc5] at hh; simp at hh))
    (by intro hh; first | omega | (rw [pc5] at hh; simp at hh))
    (by intro hh; first | omega | (rw [pc5] at hh; simp at hh))
  simp [next_pc, pc5] at pc6 n6 db6 p6 q6
  obtain ⟨s7, r7, I7, E7, pc7, n7, db7, p7, q7⟩ := main_adv I6 E6
    (by rw [pc6]; simp)
    (by intro hh; first | omega | (rw [pc6] at hh; simp at hh))
    (by intro hh; first | omega | (rw [pc6] at hh; simp at hh))
    (by intro hh; first | omega | (rw [pc6] at hh; simp at hh))
  simp [next_pc, pc6] at pc7 n7 db7 p7 q7
  obtain ⟨s8, r8, I8, E8, pc8, n8, db8, p8, q8⟩ := main_adv I7 E7
    (by rw [pc7]; simp)
    (by intro hh; first | omega | (rw [pc7] at hh; simp at hh))
    (by intro hh; first | omega | (rw [pc7] at hh; simp at hh))
    (by intro hh; first | omega | (rw [pc7] at hh; simp at hh))
  simp [next_pc, pc7] at pc8 n8 db8 p8 q8
  have hdb : s5.db = s.n := by omega
  have hp8 : (s8.slots s.n).p = .process_db := by
    rw [p8, p7, p6, if_pos hdb.symm]
  have hq8 : (s8.slots s.n).q = .lock := by
    rw [q8, if_pos (by omega)]
  obtain ⟨sl, hsl, hslp, hslq⟩ := slot_run_thread_order _ (s8.slots s.n) (I8.ok s.n) hp8 hq8
  obtain ⟨t1, t2, t3, t4⟩ := run_threads cfg s.n thread_order s8 sl hsl
  have I9 : Inv cfg input
      (run cfg (thread_order.map (fun b => if b then Tid.proc s.n else Tid.post s.n)) s8) :=
    inv_run _ I8
  have E9 : all_exited
      (run cfg (thread_order.map (fun b => if b then Tid.proc s.n else Tid.post s.n)) s8)
      (s.n + 1) := by
    intro k hk
    by_cases hkn : k = s.n
    · subst hkn; rw [t3]; exact ⟨hslp, hslq⟩
    · rw [t4 k hkn]; exact E8 k (by omega)
  rw [← t1] at pc8
  obtain ⟨s10, r10, I10, E10, pc10, n10, _, _, _⟩ := main_adv I9 E9
    (by rw [pc8]; simp)
    (by intro hh; rw [pc8] at hh; simp at hh)
    (by intro hh; rw [pc8] at hh; simp at hh)
    (by intro hh; rw [pc8] at hh; simp at hh)
  simp [next_pc, pc8] at pc10 n10
  have hrun : run cfg (good_iter s.n) s = s10 := by
    unfold good_iter
    rw [run_append, run_append]
    simp only [List.replicate]
    rw [r1, r2, r3, r4, r5, r6, r7, r8]
    have e0 : run cfg [] s8 = s8 := rfl
    rw [e0, r10]
    rfl
  rw [hrun]
  refine ⟨I10, by omega, E10, ?_⟩
  rw [pc10]

/-- After the last iteration, four controller statements reach `return 0`. -/
theorem final_run {cfg : Cfg} {input : List Nat} {s : State} (I0 : Inv cfg input s)
    (E0 : all_exited s s.n)
    (hpc : (s.pc = .loop_test ∧ s.status < cfg.batch_size) ∨ s.pc = .final_join_p) :
    (run cfg (List.replicate 4 .main) s).pc = .returned := by
  simp only [List.replicate]
  rcases hpc with ⟨pc0, hst⟩ | pc0
  · obtain ⟨s1, r1, I1, E1, pc1, n1, _, _, _⟩ := main_adv I0 E0 (by simp [pc0])
      (by intro hh; first | omega | (rw [pc0] at hh; simp at hh)) (by intro hh; first | omega | (rw [pc0] at hh; simp at hh))
      (by intro hh; first | omega | (rw [pc0] at hh; simp at hh))
    simp [next_pc, pc0, Nat.not_le.2 hst] at pc1 n1
    obtain ⟨s2, r2, I2, E2, pc2, n2, _, _, _⟩ := main_adv I1 E1 (by simp [pc1])
      (by intro hh; first | omega | (rw [pc1] at hh; simp at hh)) (by intro _; omega)
      (by intro hh; first | omega | (rw [pc1] at hh; simp at hh))
    simp [next_pc, pc1] at pc2 n2
    obtain ⟨s3, r3, I3, E3, pc3, n3, _, _, _⟩ := main_adv I2 E2 (by simp [pc2])
      (by intro hh; first | omega | (rw [pc2] at hh; simp at hh)) (by intro _; omega)
      (by intro hh; first | omega | (rw [pc2] at hh; simp at hh))
    simp [next_pc, pc2] at pc3 n3
    obtain ⟨s4, r4, I4, E4, pc4, n4, _, _, _⟩ := main_adv I3 E3 (by simp [pc3])
      (by intro hh; first | omega | (rw [pc3] at hh; simp at hh)) (by intro hh; first | omega | (rw [pc3] at hh; simp at hh))
      (by intro hh; first | omega | (rw [pc3] at hh; simp at hh))
    simp [next_pc, pc3] at pc4 n4
    rw [r1, r2, r3, r4]
    exact pc4
  · obtain ⟨s2, r2, I2, E2, pc2, n2, _, _, _⟩ := main_adv I0 E0 (by simp [pc0])
      (by intro hh; first | omega | (rw [pc0] at hh; simp at hh)) (by intro _; omega)
      (by intro hh; first | omega | (rw [pc0] at hh; simp at hh))
    simp [next_pc, pc0] at pc2 n2
    obtain ⟨s3, r3, I3, E3, pc3, n3, _, _, _⟩ := main_adv I2 E2 (by simp [pc2])
      (by intro hh; first | omega | (rw [pc2] at hh; simp at hh)) (by intro _; omega)
      (by intro hh; first | omega | (rw [pc2] at hh; simp at hh))
    simp [next_pc, pc2] at pc3 n3
    obtain ⟨s4, r4, I4, E4, pc4, n4, _, _, _⟩ := main_adv I3 E3 (by simp [pc3])
      (by intro hh; first | omega | (rw [pc3] at hh; simp at hh)) (by intro hh; first | omega | (rw [pc3] at hh; simp at hh))
      (by intro hh; first | omega | (rw [pc3] at hh; simp at hh))
    simp [next_pc, pc3] at pc4 n4
    rw [r2, r3, r4]
    have hnone : step cfg .main s4 = none := by
      show meth_main_step cfg s4 = none
      unfold meth_main_step; rw [pc4]
    show (run cfg [] ((step cfg .main s4).getD s4)).pc = _
    rw [hnone]
    exact pc4

theorem status_ge_of_cont {cfg : Cfg} {input : List Nat} {s : State} (h : Inv cfg input s)
    (hpc : s.pc = .loop_test) (hc : ∀ k, k < s.n → ¬ stopAt cfg input k) :
    cfg.batch_size ≤ s.status := by
  rcases Nat.eq_zero_or_pos s.n with z | z
  · rw [h.st0 (by rw [hpc]; rfl) z]
  · rw [h.st1 (by rw [hpc]; rfl) z]
    by_contra hlt
    exact hc (s.n - 1) (by omega) (Or.inr (by omega))

/-- The good schedule keeps the run quiescent between iterations. -/
theorem good_prefix_run (cfg : Cfg) (input : List Nat) :
    ∀ j, (∀ k, k < j → ¬ stopAt cfg input k) →
      (exec cfg input ((List.range j).map good_iter).flatten).pc = .loop_test ∧
      (exec cfg input ((List.range j).map good_iter).flatten).n = j ∧
      all_exited (exec cfg input ((List.range j).map good_iter).flatten) j := by
  intro j
  induction j with
  | zero =>
    intro _
    exact ⟨rfl, rfl, fun k hk => absurd hk (Nat.not_lt_zero k)⟩
  | succ j ih =>
    intro hc
    obtain ⟨a1, a2, a3⟩ := ih (fun k hk => hc k (by omega))
    have I := inv_exec cfg input ((List.range j).map good_iter).flatten
    have hb : cfg.debug_brk = false := by
      cases hbrk : cfg.debug_brk with
      | false => rfl
      | true => exact absurd (Or.inl hbrk) (hc j (by omega))
    have hst := status_ge_of_cont I a1 (fun k hk => hc k (by omega))
    have hrun : exec cfg input ((List.range (j + 1)).map good_iter).flatten
        = run cfg (good_iter (exec cfg input ((List.range j).map good_iter).flatten).n)
            (exec cfg input ((List.range j).map good_iter).flatten) := by
      rw [a2, List.range_succ, List.map_append, List.flatten_append]
      simp only [List.map_cons, List.map_nil, List.flatten_cons, List.flatten_nil,
        List.append_nil]
      unfold exec
      rw [run_append]
    obtain ⟨b1, b2, b3, b4⟩ := good_iter_run I a1 hst (by rw [a2]; exact a3)
    rw [← hrun] at b1 b2 b3 b4
    rw [a2] at b2 b3
    rw [hb] at b4
    exact ⟨b4, b2, b3⟩

/-- When iteration `m` is the first at which the loop is left, the good
schedule of `m + 1` iterations makes `meth_main` return. -/
theorem good_sched_returns (cfg : Cfg) (input : List Nat) (m : Nat)
    (hc : ∀ k, k < m → ¬ stopAt cfg input k) (hs : stopAt cfg input m) :
    (exec cfg input (good_sched (m + 1))).pc = .returned := by
  obtain ⟨a1, a2, a3⟩ := good_prefix_run cfg input m hc
  have I := inv_exec cfg input ((List.range m).map good_iter).flatten
  have hst := status_ge_of_cont I a1 (by rw [a2]; exact hc)
  have hrun : exec cfg input (good_sched (m + 1))
      = run cfg (List.replicate 4 .main)
          (run cfg (good_iter (exec cfg input ((List.range m).map good_iter).flatten).n)
            (exec cfg input ((List.range m).map good_iter).flatten)) := by
    rw [a2]
    unfold good_sched
    rw [List.range_succ, List.map_append, List.flatten_append]
    simp only [List.map_cons, List.map_nil, List.flatten_cons, List.flatten_nil,
      List.append_nil]
    unfold exec
    rw [run_append, run_append]
  obtain ⟨b1, b2, b3, b4⟩ := good_iter_run I a1 hst (by rw [a2]; exact a3)
  rw [hrun]
  apply final_run b1 (by rw [b2]; exact b3)
  by_cases hb : cfg.debug_brk = true
  · right; rw [b4, if_pos hb]
  · left
    rw [b4, if_neg hb]
    refine ⟨rfl, ?_⟩
    have hl : (batchAt cfg input m).length < cfg.batch_size := by
      rcases hs with h1 | h1
      · exact absurd h1 hb
      · exact h1
    have hs1 := b1.st1 (by rw [b4, if_neg hb]; rfl) (by omega)
    rw [hs1, b2, a2]
    simpa using hl

theorem std_good_sched_returns (C : Nat) (hC : 1 ≤ C) (brk : Bool) (w : Nat → Bool)
    (input : List Nat) :
    (exec (wakeCfg C brk w) input (good_sched (last_iter C brk input.length + 1))).pc
      = .returned :=
  good_sched_returns (wakeCfg C brk w) input _ (std_cont C brk w input hC)
    (std_stop C brk w input hC)

/-! ## Output order and resource accounting (C1, C7) -/

theorem nout_le_n {cfg : Cfg} {input : List Nat} {s : State} (h : Inv cfg input s) :
    nout s ≤ s.n := by
  unfold nout
  by_cases hp : (s.slots (jq s)).q.past_output = true
  · have h1 : (s.slots (jq s)).q ≠ .unspawned := by
      intro hu; rw [hu] at hp; cases hp
    have h2 := (h.q_sp _).1 h1
    have h3 := nq_le_n s
    rw [if_pos hp]; omega
  · have := jq_le_n s
    rw [if_neg hp]; omega

theorem n_le_of_stop {cfg : Cfg} {input : List Nat} {s : State} (h : Inv cfg input s)
    {m : Nat} (hm : stopAt cfg input m) : s.n ≤ m + 1 := by
  have h1 := n_le_ns s
  have h2 : ns s ≤ m := by
    by_contra hc
    exact h.cont m (by omega) hm
  omega

theorem map_range_initial {α : Type} (f : Nat → α) {a b : Nat} (hab : a ≤ b) :
    (List.range a).map f <+: (List.range b).map f := by
  obtain ⟨d, rfl⟩ : ∃ d, b = a + d := ⟨b - a, by omega⟩
  rw [List.range_add, List.map_append]
  exact List.prefix_append _ _

theorem last_iter_le (C : Nat) (brk : Bool) (N : Nat) : last_iter C brk N ≤ N := by
  unfold last_iter
  split
  · omega
  · exact Nat.div_le_self N C

/-- The batches handed to `output_db` by the interleaved run, compared with
the serial run, for every capacity `C ≥ 1`, either setting of the debug-break
flag, every input and every behaviour of the library, with the `load_db` of
the spec.  The serial loop returns.  At every moment of every interleaved run
the record lists handed to `output_db` so far are an initial segment of the
serial ones, and they are the same once the interleaved run has returned: no
record is dropped, duplicated or reordered.  If the library ends no wait
without a signal, each of these batches had moreover been processed, as in
the serial run.  The interleaved run does return under `good_sched`. -/
theorem outputs_records_equal_serial (C : Nat) (hC : 1 ≤ C) (brk : Bool) (w : Nat → Bool)
    (input : List Nat) :
    ∃ r, meth_main_serial (wakeCfg C brk w) (input.length + 2) input = some (0, r) ∧
      (∀ sched, (exec (wakeCfg C brk w) input sched).outputs.map Prod.fst <+:
        r.outputs.map Prod.fst) ∧
      (∀ sched, (exec (wakeCfg C brk w) input sched).pc = .returned →
        (exec (wakeCfg C brk w) input sched).outputs.map Prod.fst = r.outputs.map Prod.fst) ∧
      ((∀ k, w k = false) →
        (∀ sched, (exec (wakeCfg C brk w) input sched).outputs <+: r.outputs) ∧
        (∀ sched, (exec (wakeCfg C brk w) input sched).pc = .returned →
          (exec (wakeCfg C brk w) input sched).outputs = r.outputs)) ∧
      (exec (wakeCfg C brk w) input (good_sched (last_iter C brk input.length + 1))).pc
        = .returned := by
  have hcont := std_cont C brk w input hC
  have hstop := std_stop C brk w input hC
  have hle := last_iter_le C brk input.length
  obtain ⟨r, hr, _, h2, _⟩ := meth_main_serial_spec (wakeCfg C brk w) input
    (last_iter C brk input.length) (input.length + 2) (by omega) hcont hstop
  have h2f : r.outputs.map Prod.fst =
      (List.range (last_iter C brk input.length + 1)).map (batchAt (wakeCfg C brk w) input) := by
    rw [h2, List.map_map]; rfl
  refine ⟨r, hr, ?_, ?_, ?_, std_good_sched_returns C hC brk w input⟩
  · intro sched
    have h := inv_exec (wakeCfg C brk w) input sched
    rw [h.out.1, h2f]
    apply map_range_initial
    have := nout_le_n h
    have := n_le_of_stop h hstop
    omega
  · intro sched hret
    have h := inv_exec (wakeCfg C brk w) input sched
    obtain ⟨_, _, _, _, h5, _⟩ := returned_spec h (Or.inr hret)
    rw [h5.1, h2f, returned_count hC h (Or.inr hret)]
  · intro hw
    constructor
    · intro sched
      have h := inv_exec (wakeCfg C brk w) input sched
      rw [outputs_tagged h hw, h2]
      apply map_range_initial
      have := nout_le_n h
      have := n_le_of_stop h hstop
      omega
    · intro sched hret
      have h := inv_exec (wakeCfg C brk w) input sched
      obtain ⟨_, _, _, _, h5, _⟩ := returned_spec h (Or.inr hret)
      rw [h5.2 hw, h2, returned_count hC h (Or.inr hret)]

/-- C7: for every capacity `C ≥ 1`, either setting of the debug-break flag,
every input and every behaviour of the library at `pthread_cond_wait`: the
serial run returns with one `init_db` and one `free_db`; in
the interleaved run no batch and no `pthread_arg2_t` is ever released more
than once or more often than it was allocated, the batches allocated are
exactly those of the `init_db` calls, and once `meth_main` has returned every
allocated batch and every allocated `pthread_arg2_t` has been released
exactly once; the interleaved run does return under the schedule
`good_sched`. -/
theorem C7_every_allocation_released_once (C : Nat) (hC : 1 ≤ C) (brk : Bool)
    (w : Nat → Bool) (input : List Nat) :
    (∃ r, meth_main_serial (wakeCfg C brk w) (input.length + 2) input = some (0, r) ∧
      r.db_allocs = 1 ∧ r.db_frees = 1) ∧
    (∀ sched k,
      ((exec (wakeCfg C brk w) input sched).slots k).db_frees ≤
        ((exec (wakeCfg C brk w) input sched).slots k).db_allocs ∧
      ((exec (wakeCfg C brk w) input sched).slots k).arg_frees ≤
        ((exec (wakeCfg C brk w) input sched).slots k).arg_allocs ∧
      ((exec (wakeCfg C brk w) input sched).slots k).db_allocs ≤ 1 ∧
      ((exec (wakeCfg C brk w) input sched).slots k).arg_allocs ≤ 1 ∧
      (((exec (wakeCfg C brk w) input sched).slots k).db_allocs = 1 ↔
        k < (exec (wakeCfg C brk w) input sched).n)) ∧
    (∀ sched, (exec (wakeCfg C brk w) input sched).pc = .returned → ∀ k,
      ((exec (wakeCfg C brk w) input sched).slots k).db_frees =
        ((exec (wakeCfg C brk w) input sched).slots k).db_allocs ∧
      ((exec (wakeCfg C brk w) input sched).slots k).arg_frees =
        ((exec (wakeCfg C brk w) input sched).slots k).arg_allocs ∧
      (k < (exec (wakeCfg C brk w) input sched).n →
        ((exec (wakeCfg C brk w) input sched).slots k).db_frees = 1 ∧
        ((exec (wakeCfg C brk w) input sched).slots k).arg_frees = 1)) ∧
    (exec (wakeCfg C brk w) input (good_sched (last_iter C brk input.length + 1))).pc
      = .returned := by
  have hcont := std_cont C brk w input hC
  have hstop := std_stop C brk w input hC
  have hle := last_iter_le C brk input.length
  obtain ⟨r, hr, _, _, h3, h4, _⟩ := meth_main_serial_spec (wakeCfg C brk w) input
    (last_iter C brk input.length) (input.length + 2) (by omega) hcont hstop
  refine ⟨⟨r, hr, h3, h4⟩, ?_, ?_, std_good_sched_returns C hC brk w input⟩
  · intro sched k
    have h := inv_exec (wakeCfg C brk w) input sched
    generalize exec (wakeCfg C brk w) input sched = s at h ⊢
    have a := h.alloc k
    have b := h.arg k
    have c := (h.ok k).dbf
    have d := (h.ok k).argf
    have hq : (s.slots k).q ≠ .unspawned → k < s.n ∧ k < na s := fun hq =>
      ⟨Nat.lt_of_lt_of_le ((h.q_sp k).1 hq) (nq_le_n s),
        Nat.lt_of_lt_of_le ((h.q_sp k).1 hq) (nq_le_na s)⟩
    refine ⟨?_, ?_, ?_, ?_, ?_⟩
    · by_cases hp : (s.slots k).q.past_free = true
      · have : (s.slots k).q ≠ .unspawned := by intro hu; rw [hu] at hp; cases hp
        rw [c, a, if_pos hp, if_pos (hq this).1]
      · rw [c, if_neg hp]; exact Nat.zero_le _
    · by_cases hp : (s.slots k).q = .exited
      · have : (s.slots k).q ≠ .unspawned := by rw [hp]; simp
        rw [d, b, if_pos hp, if_pos (hq this).2]
      · rw [d, if_neg hp]; exact Nat.zero_le _
    · rw [a]; split <;> omega
    · rw [b]; split <;> omega
    · rw [a]; split <;> simp_all
  · intro sched hret k
    have h := inv_exec (wakeCfg C brk w) input sched
    generalize exec (wakeCfg C brk w) input sched = s at h hret ⊢
    obtain ⟨_, _, _, _, _, h6⟩ := returned_spec h (Or.inr hret)
    have a := h.alloc k
    have b := h.arg k
    have c := (h.ok k).dbf
    have d := (h.ok k).argf
    have hna : na s = s.n := by simp only [na, hret]
    rw [hna] at b
    by_cases hk : k < s.n
    · obtain ⟨_, hq, _, _⟩ := h6 k hk
      rw [hq] at c d
      rw [a, b, c, d, if_pos hk]
      simp [QPc.past_free]
    · have hq : (s.slots k).q = .unspawned := by
        by_contra hc
        exact hk (Nat.lt_of_lt_of_le ((h.q_sp k).1 hc) (nq_le_n s))
      rw [hq] at c d
      rw [a, b, c, d, if_neg hk]
      simp [QPc.past_free, hk]

/-- C7 at capacity 4 and the ten records `0 .. 9` (2.5 times the capacity). -/
theorem C7_every_allocation_released_once_witness :
    1 ≤ 4 ∧
    (∃ r, meth_main_serial (stdCfg 4 false) ((List.range 10).length + 2) (List.range 10)
        = some (0, r) ∧ r.db_allocs = 1 ∧ r.db_frees = 1) ∧
    (exec (stdCfg 4 false) (List.range 10)
      (good_sched (last_iter 4 false (List.range 10).length + 1))).pc = .returned :=
  ⟨by decide,
    (C7_every_allocation_released_once 4 (by decide) false (fun _ => false)
      (List.range 10)).1,
    (C7_every_allocation_released_once 4 (by decide) false (fun _ => false)
      (List.range 10)).2.2.2⟩

/-! ## Stage overlap and the empty input (C10, C3) -/

theorem live_bound {cfg : Cfg} {input : List Nat} {s : State} (h : Inv cfg input s) {k : Nat}
    (hk : live s k) : jq s ≤ k ∧ k < s.n := by
  unfold live at hk
  have a := h.alloc k
  have c := (h.ok k).dbf
  constructor
  · by_contra hc
    have hq := (h.ok k).qj ((h.q_jn k).2 (by omega))
    rw [hq] at c
    simp only [QPc.past_free, if_true] at c
    split at a <;> omega
  · by_contra hc
    rw [if_neg hc] at a
    omega

theorem live_at_most_two {cfg : Cfg} {input : List Nat} {s : State} (h : Inv cfg input s)
    {i j k : Nat} (hi : live s i) (hj : live s j) (hk : live s k) : i = j ∨ j = k ∨ i = k := by
  have a := live_bound h hi
  have b := live_bound h hj
  have c := live_bound h hk
  have d := n_le_jq s
  omega

/-- When the three stages are active at once, `process_db` and `output_db`
are on the same batch, `load_db` is on the next one, and the library has let
the wait of that batch end without a signal. -/
theorem three_stages_same_batch {cfg : Cfg} {input : List Nat} {s : State}
    (h : Inv cfg input s) {a b c : Nat} (ha : loading s a) (hb : processing s b)
    (hc : outputting s c) : b = c ∧ a = b + 1 ∧ cfg.spurious b = true := by
  unfold loading at ha
  unfold processing at hb
  unfold outputting at hc
  have hb1 : unjoined_p s b := by
    refine ⟨by rw [hb]; simp, ?_⟩
    by_contra hj
    have := (h.ok b).pj (by simpa using hj)
    rw [hb] at this; cases this
  have hc1 : unjoined_pp s c := by
    refine ⟨by rw [hc]; simp, ?_⟩
    by_contra hj
    have := (h.ok c).qj (by simpa using hj)
    rw [hc] at this; cases this
  have e1 := unjoined_p_eq h hb1
  have e2 := (unjoined_pp_eq h hc1).1
  have e3 := h.db_eq (by rw [ha.1]; rfl)
  simp only [np, jp, jq, ha.1] at e1 e2
  have e : b = c := by omega
  subst e
  refine ⟨rfl, by have := ha.2; omega, ?_⟩
  by_contra hw
  have := (h.ok b).woken (by simpa using hw) (by rw [hc]; rfl)
  rw [hb] at this
  cases this

set_option maxRecDepth 100000 in
/-- C10 refuted: no input and no schedule of the interleaved controller
reaches a state in which `load_db` runs on batch `k+2` while `process_db` runs
on batch `k+1` and `output_db` on batch `k`, nor a state in which three
distinct batches are allocated and not yet released. -/
theorem C10_never_three_stages_at_once :
    (¬ ∃ (cfg : Cfg) (input : List Nat) (sched : List Tid) (k : Nat),
      loading (exec cfg input sched) (k + 2) ∧ processing (exec cfg input sched) (k + 1) ∧
        outputting (exec cfg input sched) k) ∧
    (¬ ∃ (cfg : Cfg) (input : List Nat) (sched : List Tid) (i j k : Nat),
      i ≠ j ∧ j ≠ k ∧ i ≠ k ∧ live (exec cfg input sched) i ∧ live (exec cfg input sched) j ∧
        live (exec cfg input sched) k) := by
  constructor
  · rintro ⟨cfg, input, sched, k, ha, hb, hc⟩
    have := (three_stages_same_batch (inv_exec cfg input sched) ha hb hc).1
    omega
  · rintro ⟨cfg, input, sched, i, j, k, h1, h2, h3, hi, hj, hk⟩
    rcases live_at_most_two (inv_exec cfg input sched) hi hj hk with e | e | e
    · exact h1 e
    · exact h2 e
    · exact h3 e

set_option maxRecDepth 100000 in
/-- C10 as amended: at most two batches are ever allocated and not yet
released, the three stages are never active on three different batches, and
two stages can be active at once on consecutive batches: `load_db` on batch 1
with `process_db` on batch 0, `load_db` on batch 1 with `output_db` on batch
0, and `process_db` on batch 1 with `output_db` on batch 0. -/
theorem C10_two_stages_overlap_on_consecutive_batches :
    (∀ (cfg : Cfg) (input : List Nat) (sched : List Tid) (i j k : Nat),
      live (exec cfg input sched) i → live (exec cfg input sched) j →
        live (exec cfg input sched) k → i = j ∨ j = k ∨ i = k) ∧
    (∀ (cfg : Cfg) (input : List Nat) (sched : List Tid) (a b c : Nat),
      loading (exec cfg input sched) a → processing (exec cfg input sched) b →
        outputting (exec cfg input sched) c → a = b ∨ b = c ∨ a = c) ∧
    (loading (exec (stdCfg 4 false) (List.range 10) (List.replicate 11 .main)) 1 ∧
      processing (exec (stdCfg 4 false) (List.range 10) (List.replicate 11 .main)) 0) ∧
    (loading (exec (stdCfg 4 false) (List.range 10)
        ((good_iter 0).take 16 ++ List.replicate 3 .main)) 1 ∧
      outputting (exec (stdCfg 4 false) (List.range 10)
        ((good_iter 0).take 16 ++ List.replicate 3 .main)) 0) ∧
    (processing (exec (stdCfg 4 false) (List.range 10)
        ((good_iter 0).take 16 ++ List.replicate 7 .main)) 1 ∧
      outputting (exec (stdCfg 4 false) (List.range 10)
        ((good_iter 0).take 16 ++ List.replicate 7 .main)) 0 ∧
      live (exec (stdCfg 4 false) (List.range 10)
        ((good_iter 0).take 16 ++ List.replicate 7 .main)) 0 ∧
      live (exec (stdCfg 4 false) (List.range 10)
        ((good_iter 0).take 16 ++ List.replicate 7 .main)) 1) := by
  refine ⟨?_, ?_, ?_, ?_, ?_⟩
  · intro cfg input sched i j k hi hj hk
    exact live_at_most_two (inv_exec cfg input sched) hi hj hk
  · intro cfg input sched a b c ha hb hc
    exact Or.inr (Or.inl (three_stages_same_batch (inv_exec cfg input sched) ha hb hc).1)
  · unfold loading processing; decide
  · unfold loading outputting; decide
  · unfold processing outputting live; decide

set_option maxRecDepth 100000 in
/-- C3 refuted: with capacity 4 and no record, the serial run calls `init_db`
once and runs its loop body once (one `load_db` returning 0, one
`output_db`), and the second statement the interleaved controller executes is
`init_db`. -/
theorem C3_empty_input_still_allocates :
    (∃ r, meth_main_serial (stdCfg 4 false) 2 [] = some (0, r) ∧ r.db_allocs = 1 ∧ r.loads = [0] ∧
      r.outputs = [([], true)]) ∧
    (exec (stdCfg 4 false) [] [.main, .main]).n = 1 ∧
    ((exec (stdCfg 4 false) [] [.main, .main]).slots 0).db_allocs = 1 ∧
    ¬ (∀ sched, (exec (stdCfg 4 false) [] sched).n = 0) := by
  refine ⟨⟨_, rfl, rfl, rfl, rfl⟩, by decide, by decide, ?_⟩
  intro h
  have := h [.main, .main]
  revert this
  decide

set_option maxRecDepth 100000 in
/-- C3 as amended: with capacity 4 and no record, both loops run their body
exactly once.  The serial run allocates one batch, loads 0 records, processes
and outputs the empty batch, releases it and returns 0.  Whatever the library
does at `pthread_cond_wait`, the interleaved controller never allocates a
second batch, its one `load_db` returns 0, and whenever it has returned it has
allocated exactly one batch, processed it, output the empty batch once and
released it; if the library ends no wait without a signal, the batch was
processed before it was output; the schedule `good_sched 1` makes the run
return. -/
theorem C3_empty_input_one_empty_batch :
    (∃ r, meth_main_serial (stdCfg 4 false) 2 [] = some (0, r) ∧ r.db_allocs = 1 ∧ r.loads = [0] ∧
      r.outputs = [([], true)] ∧ r.db_frees = 1) ∧
    (∀ w sched, (exec (wakeCfg 4 false w) [] sched).n ≤ 1 ∧
      (exec (wakeCfg 4 false w) [] sched).loads <+: [0]) ∧
    (∀ w sched, (exec (wakeCfg 4 false w) [] sched).pc = .returned →
      (exec (wakeCfg 4 false w) [] sched).n = 1 ∧
      (exec (wakeCfg 4 false w) [] sched).loads = [0] ∧
      (exec (wakeCfg 4 false w) [] sched).outputs.map Prod.fst = [[]] ∧
      ((exec (wakeCfg 4 false w) [] sched).slots 0).processed = true ∧
      ((exec (wakeCfg 4 false w) [] sched).slots 0).db_frees = 1) ∧
    (∀ sched, (exec (stdCfg 4 false) [] sched).pc = .returned →
      (exec (stdCfg 4 false) [] sched).outputs = [([], true)]) ∧
    (∀ w, (exec (wakeCfg 4 false w) [] (good_sched 1)).pc = .returned) := by
  have hstop : ∀ w, stopAt (wakeCfg 4 false w) [] 0 := fun w =>
    std_stop 4 false w [] (by omega)
  have hret : ∀ w sched, (exec (wakeCfg 4 false w) [] sched).pc = .returned →
      (exec (wakeCfg 4 false w) [] sched).n = 1 := by
    intro w sched hret
    have h := inv_exec (wakeCfg 4 false w) [] sched
    obtain ⟨h1, _⟩ := returned_spec h (Or.inr hret)
    have hn := n_le_of_stop h (hstop w)
    omega
  refine ⟨⟨_, rfl, rfl, rfl, rfl, rfl⟩, ?_, ?_, ?_, ?_⟩
  · intro w sched
    have h := inv_exec (wakeCfg 4 false w) [] sched
    have hn := n_le_of_stop h (hstop w)
    refine ⟨hn, ?_⟩
    rw [h.lds]
    have : [0] = (List.range 1).map (fun k => (batchAt (wakeCfg 4 false w) [] k).length) := by
      rfl
    rw [this]
    apply map_range_initial
    have : nl (exec (wakeCfg 4 false w) [] sched) ≤ (exec (wakeCfg 4 false w) [] sched).n := by
      unfold nl; split <;> omega
    omega
  · intro w sched hr
    have h := inv_exec (wakeCfg 4 false w) [] sched
    obtain ⟨h1, _, _, h4, h5, h6⟩ := returned_spec h (Or.inr hr)
    have e := hret w sched hr
    obtain ⟨hp, hq, _, _⟩ := h6 0 (by omega)
    refine ⟨e, ?_, ?_, ?_, ?_⟩
    · rw [h4, e]; rfl
    · rw [h5.1, e]; rfl
    · have := (h.ok 0).processed
      rw [hp] at this
      exact this
    · have := (h.ok 0).dbf
      rw [hq] at this
      simpa [QPc.past_free] using this
  · intro sched hr
    have h := inv_exec (stdCfg 4 false) [] sched
    obtain ⟨_, _, _, _, h5, _⟩ := returned_spec h (Or.inr hr)
    have e : (exec (stdCfg 4 false) [] sched).n = 1 := hret _ sched hr
    rw [h5.2 (fun _ => rfl), e]
    rfl
  · intro w
    have := std_good_sched_returns 4 (by omega) false w []
    exact this

/-! ## Option checks (C9) -/

theorem parse_one_bad (have_cuda : Bool) (g : GetOpt) (st : Parsed) (h : bad_size g) :
    parse_one have_cuda g st = .error .failure := by
  obtain ⟨hc, hlt⟩ := h
  unfold parse_one
  rcases hc with hc | hc
  · rw [if_neg (by rw [hc]; decide), if_neg (by rw [hc]; decide), if_neg (by rw [hc]; decide),
      if_neg (by rw [hc]; decide), if_pos hc, if_pos hlt]
  · rw [if_neg (by rw [hc]; decide), if_neg (by rw [hc]; decide), if_neg (by rw [hc]; decide),
      if_neg (by rw [hc]; decide), if_neg (by rw [hc]; decide), if_pos hc, if_pos hlt]

theorem parse_one_cases (have_cuda : Bool) (g : GetOpt) (st : Parsed) :
    (bad_size g ∧ parse_one have_cuda g st = .error .failure) ∨
    (g.c = 'V'.toNat ∧ parse_one have_cuda g st = .error .success) ∨
    (∃ st1, parse_one have_cuda g st = .ok st1) := by
  unfold parse_one
  by_cases hc : g.c = 'r'.toNat
  · rw [if_pos hc]; exact Or.inr (Or.inr ⟨_, rfl⟩)
  rw [if_neg hc]
  clear hc
  by_cases hc : g.c = 'b'.toNat
  · rw [if_pos hc]; exact Or.inr (Or.inr ⟨_, rfl⟩)
  rw [if_neg hc]
  clear hc
  by_cases hc : g.c = 'g'.toNat
  · rw [if_pos hc]; exact Or.inr (Or.inr ⟨_, rfl⟩)
  rw [if_neg hc]
  clear hc
  by_cases hc : g.c = 'p'.toNat
  · rw [if_pos hc]; exact Or.inr (Or.inr ⟨_, rfl⟩)
  rw [if_neg hc]
  clear hc
  by_cases hc : g.c = 'K'.toNat
  · rw [if_pos hc]
    by_cases hlt : atoi g.optarg < 1
    · rw [if_pos hlt]; exact Or.inl ⟨⟨Or.inl hc, hlt⟩, rfl⟩
    · rw [if_neg hlt]; exact Or.inr (Or.inr ⟨_, rfl⟩)
  rw [if_neg hc]
  clear hc
  by_cases hc : g.c = 't'.toNat
  · rw [if_pos hc]
    by_cases hlt : atoi g.optarg < 1
    · rw [if_pos hlt]; exact Or.inl ⟨⟨Or.inr hc, hlt⟩, rfl⟩
    · rw [if_neg hlt]; exact Or.inr (Or.inr ⟨_, rfl⟩)
  rw [if_neg hc]
  clear hc
  by_cases hc : g.c = 'v'.toNat
  · rw [if_pos hc]; exact Or.inr (Or.inr ⟨_, rfl⟩)
  rw [if_neg hc]
  clear hc
  by_cases hc : g.c = 'V'.toNat
  · rw [if_pos hc]; exact Or.inr (Or.inl ⟨hc, rfl⟩)
  rw [if_neg hc]
  clear hc
  by_cases hc : g.c = 'h'.toNat
  · rw [if_pos hc]; exact Or.inr (Or.inr ⟨_, rfl⟩)
  rw [if_neg hc]
  clear hc
  by_cases hc : g.c = 0 ∧ g.longindex = 9
  · rw [if_pos hc]; exact Or.inr (Or.inr ⟨_, rfl⟩)
  rw [if_neg hc]
  clear hc
  by_cases hc : g.c = 0 ∧ g.longindex = 10
  · rw [if_pos hc]; exact Or.inr (Or.inr ⟨_, rfl⟩)
  rw [if_neg hc]
  clear hc
  by_cases hc : g.c = 0 ∧ g.longindex = 11
  · rw [if_pos hc]; exact Or.inr (Or.inr ⟨_, rfl⟩)
  rw [if_neg hc]
  clear hc
  by_cases hc : g.c = 0 ∧ g.longindex = 12
  · rw [if_pos hc]; exact Or.inr (Or.inr ⟨_, rfl⟩)
  rw [if_neg hc]
  clear hc
  by_cases hc : g.c = 0 ∧ g.longindex = 13
  · rw [if_pos hc]; exact Or.inr (Or.inr ⟨_, rfl⟩)
  rw [if_neg hc]
  clear hc
  by_cases hc : g.c = 0 ∧ g.longindex = 14
  · rw [if_pos hc]; exact Or.inr (Or.inr ⟨_, rfl⟩)
  rw [if_neg hc]
  clear hc
  by_cases hc : g.c = 0 ∧ g.longindex = 15
  · rw [if_pos hc]; exact Or.inr (Or.inr ⟨_, rfl⟩)
  rw [if_neg hc]
  clear hc
  by_cases hc : g.c = 0 ∧ g.longindex = 16
  · rw [if_pos hc]; exact Or.inr (Or.inr ⟨_, rfl⟩)
  rw [if_neg hc]
  clear hc
  by_cases hc : g.c = 0 ∧ g.longindex = 17
  · rw [if_pos hc]
    by_cases hcu : have_cuda = true
    · rw [if_pos hcu]; exact Or.inr (Or.inr ⟨_, rfl⟩)
    · rw [if_neg hcu]; exact Or.inr (Or.inr ⟨_, rfl⟩)
  rw [if_neg hc]
  clear hc
  by_cases hc : g.c = 0 ∧ g.longindex = 18
  · rw [if_pos hc]; exact Or.inr (Or.inr ⟨_, rfl⟩)
  rw [if_neg hc]
  clear hc
  by_cases hc : g.c = 0 ∧ g.longindex = 19
  · rw [if_pos hc]; exact Or.inr (Or.inr ⟨_, rfl⟩)
  rw [if_neg hc]
  clear hc
  exact Or.inr (Or.inr ⟨_, rfl⟩)

theorem parse_one_ok (have_cuda : Bool) (g : GetOpt) (st : Parsed) (hv : g.c ≠ 'V'.toNat)
    (h : ¬ bad_size g) : ∃ st1, parse_one have_cuda g st = .ok st1 := by
  rcases parse_one_cases have_cuda g st with h1 | h1 | h1
  · exact absurd h1.1 h
  · exact absurd h1.1 hv
  · exact h1

theorem parse_one_not_failure (have_cuda : Bool) (g : GetOpt) (st : Parsed)
    (h : ¬ bad_size g) : parse_one have_cuda g st ≠ .error .failure := by
  rcases parse_one_cases have_cuda g st with h1 | h1 | h1
  · exact absurd h1.1 h
  · rw [h1.2]; intro hc; cases hc
  · obtain ⟨st1, h2⟩ := h1
    rw [h2]; intro hc; cases hc

theorem parse_opts_append (have_cuda : Bool) (post : List GetOpt) :
    ∀ (pre : List GetOpt) (st st1 : Parsed), parse_opts have_cuda pre st = .ok st1 →
      parse_opts have_cuda (pre ++ post) st = parse_opts have_cuda post st1 := by
  intro pre
  induction pre with
  | nil =>
    intro st st1 h
    simp only [parse_opts, Except.ok.injEq] at h
    rw [List.nil_append, h]
  | cons x rest ih =>
    intro st st1 h
    simp only [parse_opts] at h
    simp only [List.cons_append, parse_opts]
    cases h1 : parse_one have_cuda x st with
    | error e => rw [h1] at h; cases h
    | ok st2 =>
      rw [h1] at h
      exact ih st2 st1 h

theorem parse_opts_not_failure (have_cuda : Bool) :
    ∀ (args : List GetOpt) (st : Parsed), (∀ x ∈ args, ¬ bad_size x) →
      parse_opts have_cuda args st ≠ .error .failure := by
  intro args
  induction args with
  | nil => intro st _ hc; cases hc
  | cons x rest ih =>
    intro st hargs
    have hx := parse_one_not_failure have_cuda x st (hargs x (List.mem_cons_self _ _))
    simp only [parse_opts]
    cases h1 : parse_one have_cuda x st with
    | error e =>
      simp only
      intro hc
      apply hx
      rw [h1, hc]
    | ok st1 =>
      exact ih st1 (fun y hy => hargs y (List.mem_cons_of_mem _ hy))

/-- A `-V` option ends the run with the success status as soon as the loop
reaches it, so an option that follows it on the command line is never handed
to the loop: after `-V`, `-K 0` is without effect. -/
theorem version_option_exits_first :
    parse_opts false [⟨'V'.toNat, 0, ""⟩, ⟨'K'.toNat, 0, "0"⟩] (parsed0 opt_default)
      = .error .success :=
  rfl

/-- C9: whenever the parsing loop is still running (`pre`, the returns of
`getopt_long` so far, left it running) and `getopt_long` returns a `-K` or `-t`
option whose argument `atoi` parses to less than 1, the loop ends the run with
the failure status, so `meth_main` stops before `init_core` and enters neither
loop; and if every `-K` and `-t` argument parses to at least 1, the parsing
loop does not end the run with the failure status. -/
theorem C9_nonpositive_size_is_fatal (have_cuda : Bool) (opt0 : Opt) (wake : Nat → Bool)
    (input : List Nat) :
    (∀ (pre : List GetOpt) (st : Parsed) (g : GetOpt) (post : List GetOpt),
      parse_opts have_cuda pre (parsed0 opt0) = .ok st → bad_size g →
        parse_one have_cuda g st = .error .failure ∧
        parse_opts have_cuda (pre ++ g :: post) (parsed0 opt0) = .error .failure ∧
        meth_main_entry have_cuda opt0 wake (pre ++ g :: post) input = .error .failure) ∧
    (∀ args : List GetOpt, (∀ x ∈ args, ¬ bad_size x) →
      parse_opts have_cuda args (parsed0 opt0) ≠ .error .failure) := by
  constructor
  · intro pre st g post hpre hg
    have h1 := parse_one_bad have_cuda g st hg
    have h : parse_opts have_cuda (pre ++ g :: post) (parsed0 opt0) = .error .failure := by
      rw [parse_opts_append have_cuda (g :: post) pre (parsed0 opt0) st hpre]
      simp only [parse_opts, h1]
    refine ⟨h1, h, ?_⟩
    simp only [meth_main_entry, h]
  · intro args hargs
    exact parse_opts_not_failure have_cuda args (parsed0 opt0) hargs

/-- C9 at `-r a -K 2147483648` (the value wraps to a negative `int`), and at
`-K 4 -t 2`. -/
theorem C9_nonpositive_size_is_fatal_witness :
    (parse_opts false [⟨'r'.toNat, 0, "a"⟩, ⟨'K'.toNat, 0, "2147483648"⟩] (parsed0 opt_default)
        = .error .failure ∧
      meth_main_entry false opt_default (fun _ => false)
        [⟨'r'.toNat, 0, "a"⟩, ⟨'K'.toNat, 0, "2147483648"⟩] [1, 2] = .error .failure) ∧
    parse_opts false [⟨'K'.toNat, 0, "4"⟩, ⟨'t'.toNat, 0, "2"⟩] (parsed0 opt_default)
      ≠ .error .failure :=
  ⟨((C9_nonpositive_size_is_fatal false opt_default (fun _ => false) [1, 2]).1
      [⟨'r'.toNat, 0, "a"⟩] _ ⟨'K'.toNat, 0, "2147483648"⟩ [] rfl (by decide)).2,
    (C9_nonpositive_size_is_fatal false opt_default (fun _ => false) []).2
      [⟨'K'.toNat, 0, "4"⟩, ⟨'t'.toNat, 0, "2"⟩] (by decide)⟩

/-! ## Complete runs -/

/-- Without the debug-break flag, once the controller has left its last join
the loop has run `N / C + 1` times, the loaded sizes are `min C (N - k * C)`
and sum to `N`, and the batches handed to `output_db` are the input in order,
whatever the library does at `pthread_cond_wait`. -/
theorem no_break_run_when_returned (C : Nat) (hC : 1 ≤ C) (w : Nat → Bool) (input : List Nat)
    (sched : List Tid) (hret : (exec (wakeCfg C false w) input sched).pc = .returned) :
    (exec (wakeCfg C false w) input sched).n = input.length / C + 1 ∧
    (exec (wakeCfg C false w) input sched).loads
      = (List.range (input.length / C + 1)).map (fun k => min C (input.length - k * C)) ∧
    (exec (wakeCfg C false w) input sched).loads.sum = input.length ∧
    ((exec (wakeCfg C false w) input sched).outputs.map Prod.fst).flatten = input := by
  have h := inv_exec (wakeCfg C false w) input sched
  obtain ⟨_, _, _, h4, h5, _⟩ := returned_spec h (Or.inr hret)
  have hn := returned_count hC h (Or.inr hret)
  simp only [last_iter, Bool.false_eq_true, if_false] at hn
  have hlt : input.length < (input.length / C + 1) * C := by
    have := Nat.lt_mul_div_succ input.length hC
    rwa [Nat.mul_comm] at this
  have hfl : ((List.range (input.length / C + 1)).map
      (fun k => batchAt (wakeCfg C false w) input k)).flatten = input := by
    rw [flatten_batches, List.take_of_length_le (Nat.le_of_lt hlt)]
  refine ⟨hn, ?_, ?_, ?_⟩
  · rw [h4, hn]
    apply List.map_congr_left
    intro k _
    exact batchAt_std_length C false w input k
  · rw [h4, hn]
    have := congrArg List.length hfl
    rw [List.length_flatten, List.map_map] at this
    exact this
  · rw [h5.1, hn]
    exact hfl

/-- With the debug-break flag, at most one batch is ever allocated, and once
`meth_main` has returned exactly one batch, of size `min C N`, was loaded and
output, and both tasks were joined; the batch was processed before it was
output if the library ends no wait without a signal. -/
theorem debug_break_run (C : Nat) (w : Nat → Bool) (input : List Nat) (sched : List Tid) :
    (exec (wakeCfg C true w) input sched).n ≤ 1 ∧
    ((exec (wakeCfg C true w) input sched).pc = .returned →
      (exec (wakeCfg C true w) input sched).n = 1 ∧
      (exec (wakeCfg C true w) input sched).loads = [min C input.length] ∧
      (exec (wakeCfg C true w) input sched).outputs.map Prod.fst = [input.take C] ∧
      ((∀ k, w k = false) →
        (exec (wakeCfg C true w) input sched).outputs = [(input.take C, true)]) ∧
      ((exec (wakeCfg C true w) input sched).slots 0).p_joined = true ∧
      ((exec (wakeCfg C true w) input sched).slots 0).q_joined = true) := by
  have h := inv_exec (wakeCfg C true w) input sched
  have hstop : stopAt (wakeCfg C true w) input 0 := Or.inl rfl
  have hle := n_le_of_stop h hstop
  refine ⟨hle, ?_⟩
  intro hret
  obtain ⟨h1, _, _, h4, h5, h6⟩ := returned_spec h (Or.inr hret)
  have e : (exec (wakeCfg C true w) input sched).n = 1 := by omega
  obtain ⟨_, _, h7, h8⟩ := h6 0 (by omega)
  refine ⟨e, ?_, ?_, ?_, h7, h8⟩
  · rw [h4, e]
    simp [batchAt_std_length, List.range_succ]
  · rw [h5.1, e]
    simp [batchAt_std, List.range_succ]
  · intro hw
    rw [h5.2 hw, e]
    simp [batchAt_std, List.range_succ]

end F5c
